import Mathlib

/-!
Verification of the serving-support layer of the harvest-log backend:
the bounded TTL cache (`app/cache.py`), the sliding-window rate limiter
(`app/middleware.py`) and the keyset pagination engine (`app/pagination.py`).

Shallow embedding conventions:
* Python `datetime` instants are modelled as `Int` (an abstract totally
  ordered clock); `datetime.now()` becomes an explicit `now : Int` argument.
* `datetime.max` (the initial `lru_time` of the eviction scan) is modelled by
  starting the scan with `none`, which every concrete instant beats.
* Python `dict` is modelled as an association list in insertion order:
  assigning to an existing key overwrites it in place, a new key is appended
  (CPython dicts preserve insertion order, and iteration in `_evict_lru`
  follows it).
* Fallible operations return `Option` / `Except`.
-/

set_option autoImplicit false
set_option maxRecDepth 10000

namespace HarvestLog

universe u

/-! ## Bounded TTL cache (`app/cache.py`) -/

/-- `CacheEntry` from `app/cache.py`: value plus bookkeeping metadata. -/
structure CacheEntry (V : Type u) where
  value : V
  created_at : Int
  expires_at : Option Int
  access_count : Nat := 0
  last_accessed : Option Int := none
deriving DecidableEq, Repr

/-- `InMemoryCache` from `app/cache.py`: bounded mapping with default TTL.
The `_cache` dict is the insertion-ordered association list `cache`. -/
structure InMemoryCache (V : Type u) where
  max_size : Nat
  default_ttl : Int
  cache : List (String × CacheEntry V)
deriving DecidableEq, Repr

/-- `self._cache.get(key)`: first entry with the given key. -/
def lookupEntry {V : Type u} (l : List (String × CacheEntry V)) (k : String) :
    Option (CacheEntry V) :=
  (l.find? (fun p => p.1 == k)).map (fun p => p.2)

/-- `key in self._cache`. -/
def containsKey {V : Type u} (l : List (String × CacheEntry V)) (k : String) : Bool :=
  l.any (fun p => p.1 == k)

/-- `self._cache[key] = entry`: overwrite in place if present, else append. -/
def storeEntry {V : Type u} (l : List (String × CacheEntry V)) (k : String)
    (e : CacheEntry V) : List (String × CacheEntry V) :=
  if containsKey l k then l.map (fun p => if p.1 == k then (k, e) else p)
  else l ++ [(k, e)]

/-- `del self._cache[key]`. -/
def eraseKey {V : Type u} (l : List (String × CacheEntry V)) (k : String) :
    List (String × CacheEntry V) :=
  l.filter (fun p => !(p.1 == k))

/-- `entry.expires_at and datetime.now() > entry.expires_at` (`None` is falsy). -/
def isExpired {V : Type u} (e : CacheEntry V) (now : Int) : Bool :=
  match e.expires_at with
  | none => false
  | some ex => now > ex

/-- `entry.last_accessed or entry.created_at` (datetimes are always truthy). -/
def accessTime {V : Type u} (e : CacheEntry V) : Int :=
  e.last_accessed.getD e.created_at

/-- The scan loop of `_evict_lru`: `lru_time` starts at `datetime.max`
(modelled by the accumulator `none`) and is lowered on strict `<`. -/
def lruScan {V : Type u} :
    List (String × CacheEntry V) → Option (String × Int) → Option (String × Int)
  | [], acc => acc
  | (k, e) :: rest, acc =>
    let t := accessTime e
    match acc with
    | none => lruScan rest (some (k, t))
    | some (bk, bt) =>
      if t < bt then lruScan rest (some (k, t)) else lruScan rest (some (bk, bt))

namespace InMemoryCache

variable {V : Type u}

/-- `InMemoryCache._evict_lru`.  Note the final guard is `if lru_key:` —
Python truthiness — so an empty-string key is never deleted. -/
def evict_lru (l : List (String × CacheEntry V)) : List (String × CacheEntry V) :=
  match lruScan l none with
  | none => l
  | some (lru_key, _) => if lru_key == "" then l else eraseKey l lru_key

/-- `InMemoryCache.get`: returns the value (or `none` on miss/expiry) and the
updated cache; an expired entry is deleted, a hit bumps the access stats. -/
def get (c : InMemoryCache V) (key : String) (now : Int) :
    Option V × InMemoryCache V :=
  match lookupEntry c.cache key with
  | none => (none, c)
  | some entry =>
    if isExpired entry now then (none, { c with cache := eraseKey c.cache key })
    else
      let entry2 : CacheEntry V :=
        { entry with access_count := entry.access_count + 1,
                     last_accessed := some now }
      (some entry.value, { c with cache := storeEntry c.cache key entry2 })

/-- `ttl = ttl or self.default_ttl` in `InMemoryCache.set`: Python `or`
falls back on falsy values, so both `None` and `0` yield the default. -/
def effTtl (default_ttl : Int) : Option Int → Int
  | none => default_ttl
  | some t => if t = 0 then default_ttl else t

/-- `expires_at = datetime.now() + timedelta(seconds=ttl) if ttl > 0 else None`. -/
def expiryOf (default_ttl : Int) (ttl : Option Int) (now : Int) : Option Int :=
  if effTtl default_ttl ttl > 0 then some (now + effTtl default_ttl ttl) else none

/-- `InMemoryCache.set`.  `ttl = ttl or self.default_ttl` maps both `None`
and `0` to the default; `expires_at` is set only when the effective TTL is
positive; a full cache evicts before inserting a new key. -/
def set (c : InMemoryCache V) (key : String) (value : V) (ttl : Option Int)
    (now : Int) : InMemoryCache V :=
  let expires_at : Option Int := expiryOf c.default_ttl ttl now
  let cache1 :=
    if c.max_size ≤ c.cache.length ∧ containsKey c.cache key = false then
      evict_lru c.cache
    else c.cache
  let entry : CacheEntry V :=
    { value := value, created_at := now, expires_at := expires_at }
  { c with cache := storeEntry cache1 key entry }

/-- `InMemoryCache.delete`. -/
def delete (c : InMemoryCache V) (key : String) : Bool × InMemoryCache V :=
  if containsKey c.cache key then (true, { c with cache := eraseKey c.cache key })
  else (false, c)

/-- `InMemoryCache.clear`. -/
def clear (c : InMemoryCache V) : InMemoryCache V :=
  { c with cache := [] }

/-- `InMemoryCache.cleanup_expired`: removes every expired entry, returning
the number removed. -/
def cleanup_expired (c : InMemoryCache V) (now : Int) : Nat × InMemoryCache V :=
  let expired := c.cache.filter (fun p => isExpired p.2 now)
  (expired.length, { c with cache := c.cache.filter (fun p => !(isExpired p.2 now)) })

end InMemoryCache

/-- The Python-level result of `_cache.get`: a stored `None` value and a miss
are the same object `None`.  With values of type `Option β` this is the join. -/
def pyGetValue {β : Type u} (c : InMemoryCache (Option β)) (key : String)
    (now : Int) : Option β × InMemoryCache (Option β) :=
  let r := InMemoryCache.get c key now
  (r.1.join, r.2)

/-- One call of the wrapper produced by the `cached` decorator
(`app/cache.py` lines 186-211), at a fixed computed `full_key`:
`cached_result = await _cache.get(full_key); if cached_result is not None:
return it; result = await func(...); await _cache.set(full_key, result, ttl)`.
The third component records whether the wrapped function was invoked. -/
def cachedCall {β : Type u} (fullKey : String) (ttl : Int) (f : Unit → Option β)
    (c : InMemoryCache (Option β)) (now : Int) :
    Option β × InMemoryCache (Option β) × Bool :=
  let r := InMemoryCache.get c fullKey now
  match r.1.join with
  | some v => (some v, r.2, false)
  | none =>
    let result := f ()
    (result, InMemoryCache.set r.2 fullKey result (some ttl) now, true)

/-! ## Sliding-window rate limiter (`app/middleware.py`, `RateLimitMiddleware`) -/

/-- Per-client entry of `self.clients`: the two timestamp windows. -/
structure RLState where
  requests : List Int
  burst_requests : List Int
deriving DecidableEq, Repr

/-- `RateLimitMiddleware._is_rate_limited` for one client: prune both windows,
check the minute limit then the burst limit (both with `>=`), and only on
admission append `now` to both windows.  Returns the flag and the new state. -/
def is_rate_limited (requests_per_minute burst_limit : Nat) (st : RLState)
    (now : Int) : Bool × RLState :=
  let reqs := st.requests.filter (fun t => t > now - 60)
  let bursts := st.burst_requests.filter (fun t => t > now - 10)
  if requests_per_minute ≤ reqs.length then (true, ⟨reqs, bursts⟩)
  else if burst_limit ≤ bursts.length then (true, ⟨reqs, bursts⟩)
  else (false, ⟨reqs ++ [now], bursts ++ [now]⟩)

/-- The response fields `RateLimitMiddleware.dispatch` can produce or touch:
status code, the three rate-limit headers, and the error code of the 429 body. -/
structure ResponseM where
  status : Nat
  retryAfter : Option String := none
  rlLimit : Option String := none
  rlRemaining : Option String := none
  errorCode : Option String := none
deriving DecidableEq, Repr

/-- `RateLimitMiddleware.dispatch` for one request of a single client:
exempt paths `/` and `/health` pass straight through; a rate-limited request
gets the 429 response with `Retry-After: 60`, `X-RateLimit-Limit` and
`X-RateLimit-Remaining: 0` and never reaches the downstream handler;
otherwise the downstream response gets the rate-limit headers attached.
The `Bool` component records whether `call_next` was invoked. -/
def dispatch (requests_per_minute burst_limit : Nat) (path : String)
    (st : RLState) (now : Int) (downstream : ResponseM) :
    ResponseM × RLState × Bool :=
  if path = "/" ∨ path = "/health" then (downstream, st, true)
  else
    let r := is_rate_limited requests_per_minute burst_limit st now
    if r.1 then
      ({ status := 429, retryAfter := some "60",
         rlLimit := some (toString requests_per_minute),
         rlRemaining := some "0",
         errorCode := some "RATE_LIMIT_EXCEEDED" }, r.2, false)
    else
      let remaining := requests_per_minute - r.2.requests.length
      ({ downstream with rlLimit := some (toString requests_per_minute),
                         rlRemaining := some (toString remaining) }, r.2, true)

/-- A sequence of requests from one client at the given times, all to the same
non-exempt path, with the same downstream handler; collects each request's
response and invoked-flag. -/
def runDispatch (requests_per_minute burst_limit : Nat) (path : String)
    (downstream : ResponseM) : List Int → RLState →
    List (ResponseM × Bool) × RLState
  | [], st => ([], st)
  | t :: ts, st =>
    let r := dispatch requests_per_minute burst_limit path st t downstream
    let rest := runDispatch requests_per_minute burst_limit path downstream ts r.2.1
    ((r.1, r.2.2) :: rest.1, rest.2)

/-! ## Keyset pagination engine (`app/pagination.py`) -/

/-- A database row as the pagination engine sees it: its `(created_at, id)`
sort key.  `created_at` (a timestamp) and `id` (a UUID) are both drawn from
totally ordered domains, modelled as `Int`. -/
structure Row where
  created_at : Int
  id : Int
deriving DecidableEq, Repr

/-- The descending-order cursor predicate added by
`PaginationHelper.build_events_query`:
`created_at.lt.C or (created_at.eq.C and id.lt.I)`. -/
def cursorPredDesc (cursor : Row) (r : Row) : Bool :=
  r.created_at < cursor.created_at ∨
    (r.created_at = cursor.created_at ∧ r.id < cursor.id)

/-- Strict descending lexicographic order on `(created_at, id)`: `rowGt a b`
says `a` sorts strictly before `b` in a descending listing. -/
def rowGt (a b : Row) : Prop :=
  b.created_at < a.created_at ∨ (b.created_at = a.created_at ∧ b.id < a.id)

instance : DecidableRel rowGt := fun a b => by
  unfold rowGt; infer_instance

/-- The rows the query built by `PaginationHelper.build_events_query`
(descending order, optional cursor predicate, `limit(params.limit + 1)`)
selects from an immutable snapshot already sorted descending by
`(created_at, id)`. -/
def selectRows (snapshot : List Row) (cursor : Option Row) (limit : Nat) :
    List Row :=
  (match cursor with
   | none => snapshot
   | some c => snapshot.filter (cursorPredDesc c)).take (limit + 1)

/-- `PaginationResult` restricted to the fields the completeness claim is
about; cursors are carried as their decoded `(created_at, id)` pairs. -/
structure PaginationResultM where
  items : List Row
  has_next : Bool
  has_previous : Bool
  next_cursor : Option Row
  previous_cursor : Option Row
deriving DecidableEq, Repr

/-- `PaginationHelper.process_events_result`: `has_next = len(data) > limit`,
the page drops the extra row, `next_cursor` comes from the last included item
(`if has_next and items:`), `has_previous` mirrors the supplied cursor and
`previous_cursor` comes from the first item. -/
def process_events_result (data : List Row) (limit : Nat)
    (current_cursor : Option Row) : PaginationResultM :=
  let has_next := decide (limit < data.length)
  let items := data.take limit
  let next_cursor := if has_next then items.getLast? else none
  let has_previous := current_cursor.isSome
  let previous_cursor := if has_previous then items.head? else none
  { items := items, has_next := has_next, has_previous := has_previous,
    next_cursor := next_cursor, previous_cursor := previous_cursor }

/-- One client-side pagination walk: issue the query (via `selectRows`),
process it, and follow `next_cursor` while one is returned; yields the
concatenation of all page items and the final page's `has_next`.  The fuel
bounds the number of pages (any fuel beyond the page count is enough). -/
def followPages (snapshot : List Row) (limit : Nat) :
    Nat → Option Row → List Row × Bool
  | 0, _ => ([], true)
  | fuel + 1, cursor =>
    let res := process_events_result (selectRows snapshot cursor limit) limit cursor
    match res.next_cursor with
    | some nc =>
      let rest := followPages snapshot limit fuel (some nc)
      (res.items ++ rest.1, rest.2)
    | none => (res.items, res.has_next)

/-! ## Cursor wire format (`PaginationCursor.encode` / `decode`)

`encode` is `base64(json.dumps({"created_at": dt.isoformat(), "id": str(uuid)},
sort_keys=True))`; `decode` reverses the pipeline and wraps the caught
exception classes `(ValueError, KeyError, json.JSONDecodeError)` into
`ValidationException("Invalid cursor format: ...")`.  The standard-library
stages are modelled executably below. -/

/-! ### Fixed-width digit printing and reading -/

/-- A decimal digit character. -/
def decDigitChar (d : Nat) : Char := Char.ofNat (48 + d)

/-- A lowercase hexadecimal digit character. -/
def hexDigitChar (d : Nat) : Char :=
  if d < 10 then Char.ofNat (48 + d) else Char.ofNat (87 + d)

/-- Zero-padded decimal printing, most significant digit first. -/
def decPrint : Nat → Nat → List Char
  | 0, _ => []
  | w + 1, n => decDigitChar (n / 10 ^ w) :: decPrint w (n % 10 ^ w)

/-- Zero-padded lowercase hexadecimal printing, most significant digit first. -/
def hexPrint : Nat → Nat → List Char
  | 0, _ => []
  | w + 1, n => hexDigitChar (n / 16 ^ w) :: hexPrint w (n % 16 ^ w)

/-- Value of a decimal digit character. -/
def decDigitVal? (c : Char) : Option Nat :=
  if 48 ≤ c.toNat ∧ c.toNat ≤ 57 then some (c.toNat - 48) else none

/-- Value of a hexadecimal digit character (either case). -/
def hexDigitVal? (c : Char) : Option Nat :=
  if 48 ≤ c.toNat ∧ c.toNat ≤ 57 then some (c.toNat - 48)
  else if 97 ≤ c.toNat ∧ c.toNat ≤ 102 then some (c.toNat - 87)
  else if 65 ≤ c.toNat ∧ c.toNat ≤ 70 then some (c.toNat - 55)
  else none

/-- Read exactly `w` decimal digits into an accumulator. -/
def readDec : Nat → Nat → List Char → Option (Nat × List Char)
  | 0, acc, l => some (acc, l)
  | _ + 1, _, [] => none
  | w + 1, acc, c :: l =>
    match decDigitVal? c with
    | some d => readDec w (acc * 10 + d) l
    | none => none

/-- Fold an entire character list as hexadecimal digits. -/
def hexValList : Nat → List Char → Option Nat
  | acc, [] => some acc
  | acc, c :: l =>
    match hexDigitVal? c with
    | some d => hexValList (acc * 16 + d) l
    | none => none

/-- Consume one expected character. -/
def expectChar (c : Char) : List Char → Option (List Char)
  | x :: r => if x = c then some r else none
  | [] => none

/-! ### `datetime` (naive or with a minute-resolution UTC offset) -/

/-- A Python `datetime`, with the optional fixed UTC offset in minutes
(offsets of standard `timezone` objects at minute resolution). -/
structure DateTimeM where
  year : Nat
  month : Nat
  day : Nat
  hour : Nat
  minute : Nat
  second : Nat
  microsecond : Nat
  utcoffset : Option Int
deriving DecidableEq, Repr

/-- Gregorian leap-year rule. -/
def isLeapYear (y : Nat) : Bool := y % 4 = 0 ∧ (y % 100 ≠ 0 ∨ y % 400 = 0)

/-- Days in a month. -/
def daysInMonth (y m : Nat) : Nat :=
  if m = 2 then (if isLeapYear y then 29 else 28)
  else if m = 4 ∨ m = 6 ∨ m = 9 ∨ m = 11 then 30
  else 31

/-- The constraints `datetime.datetime` itself enforces on its components. -/
def ValidDateTime (d : DateTimeM) : Prop :=
  1 ≤ d.year ∧ d.year ≤ 9999 ∧ 1 ≤ d.month ∧ d.month ≤ 12 ∧
  1 ≤ d.day ∧ d.day ≤ daysInMonth d.year d.month ∧
  d.hour ≤ 23 ∧ d.minute ≤ 59 ∧ d.second ≤ 59 ∧ d.microsecond ≤ 999999 ∧
  (∀ off ∈ d.utcoffset, off.natAbs ≤ 23 * 60 + 59)

instance : DecidablePred ValidDateTime := fun d => by
  unfold ValidDateTime; infer_instance

/-- `datetime.isoformat()`: `YYYY-MM-DDTHH:MM:SS`, with `.ffffff` exactly when
`microsecond` is nonzero, and `+HH:MM` / `-HH:MM` for an aware datetime. -/
def isoformatM (d : DateTimeM) : List Char :=
  decPrint 4 d.year ++ '-' :: decPrint 2 d.month ++ '-' :: decPrint 2 d.day ++
  'T' :: decPrint 2 d.hour ++ ':' :: decPrint 2 d.minute ++
  ':' :: decPrint 2 d.second ++
  (if d.microsecond = 0 then [] else '.' :: decPrint 6 d.microsecond) ++
  (match d.utcoffset with
   | none => []
   | some off =>
     (if off < 0 then '-' else '+') ::
       decPrint 2 (off.natAbs / 60) ++ ':' :: decPrint 2 (off.natAbs % 60))

/-- Fractional-seconds part accepted after the time: `.`+6 digits or nothing. -/
def parseFraction : List Char → Option (Nat × List Char)
  | [] => some (0, [])
  | c :: r => if c = '.' then readDec 6 0 r else some (0, c :: r)

/-- Trailing UTC offset: empty, or `±HH:MM` (valid `timezone` range). -/
def parseTz : List Char → Option (Option Int)
  | [] => some none
  | c :: r =>
    if c = '+' ∨ c = '-' then
      match readDec 2 0 r with
      | some (oh, r1) =>
        match expectChar ':' r1 with
        | some r2 =>
          match readDec 2 0 r2 with
          | some (om, r3) =>
            if r3 = [] ∧ oh ≤ 23 ∧ om ≤ 59 then
              some (some (if c = '-' then -((oh : Int) * 60 + om)
                          else (oh : Int) * 60 + om))
            else none
          | none => none
        | none => none
      | none => none
    else none

/-- `datetime.fromisoformat` on the grammar `isoformat` emits
(`YYYY-MM-DD[TZHH:MM:SS[.ffffff]][±HH:MM]` with range validation); returns
`none` for `ValueError`. -/
def fromisoformatM (s : List Char) : Option DateTimeM := do
  let (y, r1) ← readDec 4 0 s
  let r2 ← expectChar '-' r1
  let (mo, r3) ← readDec 2 0 r2
  let r4 ← expectChar '-' r3
  let (dd, r5) ← readDec 2 0 r4
  if 1 ≤ mo ∧ mo ≤ 12 ∧ 1 ≤ dd ∧ dd ≤ daysInMonth y mo then
    match r5 with
    | [] => some ⟨y, mo, dd, 0, 0, 0, 0, none⟩
    | sep :: r6 =>
      if sep = 'T' ∨ sep = ' ' then do
        let (hh, r7) ← readDec 2 0 r6
        let r8 ← expectChar ':' r7
        let (mi, r9) ← readDec 2 0 r8
        let r10 ← expectChar ':' r9
        let (ss, r11) ← readDec 2 0 r10
        if hh ≤ 23 ∧ mi ≤ 59 ∧ ss ≤ 59 then do
          let (us, r12) ← parseFraction r11
          let off ← parseTz r12
          some ⟨y, mo, dd, hh, mi, ss, us, off⟩
        else none
      else none
  else none

/-! ### `uuid.UUID` -/

/-- `str(uuid)`: 32 lowercase hex digits grouped 8-4-4-4-12. -/
def uuidStr (n : Nat) : List Char :=
  let h := hexPrint 32 n
  h.take 8 ++ '-' :: (h.drop 8).take 4 ++ '-' :: (h.drop 12).take 4 ++
    '-' :: (h.drop 16).take 4 ++ '-' :: h.drop 20

/-- Python `str.strip('{}')`: remove `{`/`}` characters from both ends. -/
def stripBraces (l : List Char) : List Char :=
  ((l.dropWhile (fun c => c = '{' ∨ c = '}')).reverse.dropWhile
    (fun c => c = '{' ∨ c = '}')).reverse

/-- `uuid.UUID(hex)` on a string: strip braces, drop hyphens, require 32 hex
digits (`none` for `ValueError`).  The `urn:`/`uuid:` prefix removals are
identity on every string this development produces and are omitted. -/
def uuidParse (s : List Char) : Option Nat :=
  let h := (stripBraces s).filter (fun c => !(c = '-'))
  if h.length = 32 then hexValList 0 h else none

/-! ### UTF-8 -/

/-- UTF-8 encoding of one scalar value. -/
def utf8EncodeChar (c : Char) : List Nat :=
  let n := c.toNat
  if n < 128 then [n]
  else if n < 2048 then [192 + n / 64, 128 + n % 64]
  else if n < 65536 then [224 + n / 4096, 128 + n / 64 % 64, 128 + n % 64]
  else [240 + n / 262144, 128 + n / 4096 % 64, 128 + n / 64 % 64, 128 + n % 64]

/-- `str.encode('utf-8')`. -/
def utf8Encode (s : List Char) : List Nat := (s.map utf8EncodeChar).flatten

/-- Is a byte a UTF-8 continuation byte? -/
def isCont (b : Nat) : Bool := 128 ≤ b ∧ b < 192

mutual

/-- `bytes.decode('utf-8')`; `none` for `UnicodeDecodeError` (invalid leads,
truncated sequences, overlong encodings, surrogates, out-of-range values). -/
def utf8Decode : List Nat → Option (List Char)
  | [] => some []
  | b :: r =>
    if b < 128 then (utf8Decode r).map (fun s => Char.ofNat b :: s)
    else if b < 192 then none
    else if b < 224 then utf8Dec2 b r
    else if b < 240 then utf8Dec3 b r
    else if b < 248 then utf8Dec4 b r
    else none
termination_by l => l.length

/-- Continuation of a two-byte UTF-8 sequence. -/
def utf8Dec2 (b : Nat) : List Nat → Option (List Char)
  | b2 :: r2 =>
    if isCont b2 then
      let n := (b - 192) * 64 + (b2 - 128)
      if n < 128 then none
      else (utf8Decode r2).map (fun s => Char.ofNat n :: s)
    else none
  | _ => none
termination_by r => r.length

/-- Continuation of a three-byte UTF-8 sequence. -/
def utf8Dec3 (b : Nat) : List Nat → Option (List Char)
  | b2 :: b3 :: r2 =>
    if isCont b2 ∧ isCont b3 then
      let n := (b - 224) * 4096 + (b2 - 128) * 64 + (b3 - 128)
      if n < 2048 ∨ (55296 ≤ n ∧ n < 57344) then none
      else (utf8Decode r2).map (fun s => Char.ofNat n :: s)
    else none
  | _ => none
termination_by r => r.length

/-- Continuation of a four-byte UTF-8 sequence. -/
def utf8Dec4 (b : Nat) : List Nat → Option (List Char)
  | b2 :: b3 :: b4 :: r2 =>
    if isCont b2 ∧ isCont b3 ∧ isCont b4 then
      let n := (b - 240) * 262144 + (b2 - 128) * 4096 +
        (b3 - 128) * 64 + (b4 - 128)
      if n < 65536 ∨ 1114111 < n then none
      else (utf8Decode r2).map (fun s => Char.ofNat n :: s)
    else none
  | _ => none
termination_by r => r.length

end

/-! ### base64 -/

/-- The standard base64 alphabet. -/
def b64Alphabet : List Char :=
  "ABCDEFGHIJKLMNOPQRSTUVWXYZabcdefghijklmnopqrstuvwxyz0123456789+/".toList

/-- Character for a 6-bit group. -/
def b64Char (n : Nat) : Char := b64Alphabet.getD n 'A'

/-- 6-bit value of an alphabet character. -/
def b64Val? (c : Char) : Option Nat := b64Alphabet.indexOf? c

/-- `base64.b64encode(...).decode('utf-8')`: 3-byte groups to 4 characters,
with `=` padding. -/
def b64encode : List Nat → List Char
  | a :: b :: c :: rest =>
    b64Char (a / 4) :: b64Char (a % 4 * 16 + b / 16) ::
      b64Char (b % 16 * 4 + c / 64) :: b64Char (c % 64) :: b64encode rest
  | [a, b] => [b64Char (a / 4), b64Char (a % 4 * 16 + b / 16),
               b64Char (b % 16 * 4), '=']
  | [a] => [b64Char (a / 4), b64Char (a % 4 * 16), '=', '=']
  | [] => []

/-- `base64.b64decode` of the token's bytes; `none` for `binascii.Error`.
The model requires a clean base64 string (CPython's lenient mode additionally
discards bytes outside the alphabet before decoding; on the clean tokens
`encode` produces the two agree). -/
def b64decode : List Char → Option (List Nat)
  | [] => some []
  | w :: x :: y :: z :: rest =>
    if z = '=' then
      if rest = [] then
        if y = '=' then do
          let vw ← b64Val? w
          let vx ← b64Val? x
          some [vw * 4 + vx / 16]
        else do
          let vw ← b64Val? w
          let vx ← b64Val? x
          let vy ← b64Val? y
          some [vw * 4 + vx / 16, vx % 16 * 16 + vy / 4]
      else none
    else do
      let vw ← b64Val? w
      let vx ← b64Val? x
      let vy ← b64Val? y
      let vz ← b64Val? z
      let tail ← b64decode rest
      some ((vw * 4 + vx / 16) :: (vx % 16 * 16 + vy / 4) :: (vy % 4 * 64 + vz) :: tail)
  | _ => none

/-! ### JSON (`json.dumps` / `json.loads`) -/

/-- A parsed JSON value.  Numbers keep only their integral part: the engine
below never inspects the numeric value, only whether a value is a string. -/
inductive JsonVal where
  | jstr : List Char → JsonVal
  | jnum : Int → JsonVal
  | jbool : Bool → JsonVal
  | jnull : JsonVal
  | jarr : List JsonVal → JsonVal
  | jobj : List (List Char × JsonVal) → JsonVal
deriving Repr

/-- JSON whitespace skipping. -/
def skipWs (l : List Char) : List Char :=
  l.dropWhile (fun c => c = ' ' ∨ c = '\t' ∨ c = '\n' ∨ c = '\r')

/-- JSON string body (after the opening quote), with escape handling. -/
def parseJString : List Char → Option (List Char × List Char)
  | [] => none
  | c :: r =>
    if c = '"' then some ([], r)
    else if c = '\\' then
      match r with
      | [] => none
      | e :: r1 =>
        match e with
        | '"' => (parseJString r1).map (fun p => ('"' :: p.1, p.2))
        | '\\' => (parseJString r1).map (fun p => ('\\' :: p.1, p.2))
        | '/' => (parseJString r1).map (fun p => ('/' :: p.1, p.2))
        | 'b' => (parseJString r1).map (fun p => (Char.ofNat 8 :: p.1, p.2))
        | 'f' => (parseJString r1).map (fun p => (Char.ofNat 12 :: p.1, p.2))
        | 'n' => (parseJString r1).map (fun p => ('\n' :: p.1, p.2))
        | 'r' => (parseJString r1).map (fun p => (Char.ofNat 13 :: p.1, p.2))
        | 't' => (parseJString r1).map (fun p => ('\t' :: p.1, p.2))
        | 'u' =>
          match r1 with
          | a :: b :: c2 :: d :: r2 => do
            let va ← hexDigitVal? a
            let vb ← hexDigitVal? b
            let vc ← hexDigitVal? c2
            let vd ← hexDigitVal? d
            (parseJString r2).map (fun p =>
              (Char.ofNat (va * 4096 + vb * 256 + vc * 16 + vd) :: p.1, p.2))
          | _ => none
        | _ => none
    else (parseJString r).map (fun p => (c :: p.1, p.2))

/-- Is a character a decimal digit? -/
def isDigitCh (c : Char) : Bool := 48 ≤ c.toNat ∧ c.toNat ≤ 57

/-- Digits folded to a number. -/
def digitsVal (l : List Char) : Nat := l.foldl (fun acc c => acc * 10 + (c.toNat - 48)) 0

/-- A JSON number (sign, integer part, optional fraction and exponent);
only the signed integer part is retained. -/
def parseJNumber (l : List Char) : Option (Int × List Char) :=
  let (neg, l1) := match l with
    | '-' :: r => (true, r)
    | _ => (false, l)
  let digs := l1.takeWhile isDigitCh
  let l2 := l1.dropWhile isDigitCh
  if digs = [] then none
  else
    let l3 := match l2 with
      | '.' :: r =>
        if (r.takeWhile isDigitCh) = [] then l2 else r.dropWhile isDigitCh
      | _ => l2
    let l4 := match l3 with
      | 'e' :: r => skipExp r
      | 'E' :: r => skipExp r
      | _ => l3
    let v : Int := digitsVal digs
    some (if neg then -v else v, l4)
where
  /-- Exponent tail: optional sign then digits (falls back if absent). -/
  skipExp (r : List Char) : List Char :=
    let r1 := match r with
      | '+' :: s => s
      | '-' :: s => s
      | _ => r
    r1.dropWhile isDigitCh

mutual

/-- One JSON value, recursive-descent with fuel (any fuel past the nesting
and member count suffices).  Dispatch is by first non-whitespace character;
a malformed literal (`tr`, `nul`, …) falls through to the number parser and
fails there, as `json.loads` fails on it. -/
def parseJValue : Nat → List Char → Option (JsonVal × List Char)
  | 0, _ => none
  | fuel + 1, l =>
    match skipWs l with
    | [] => none
    | c :: r =>
      if c = '"' then (parseJString r).map (fun p => (JsonVal.jstr p.1, p.2))
      else if c = '{' then
        (match skipWs r with
         | [] => parseJMembers fuel [] []
         | c2 :: r2 =>
           if c2 = '}' then some (JsonVal.jobj [], r2)
           else parseJMembers fuel (c2 :: r2) [])
      else if c = '[' then
        (match skipWs r with
         | [] => parseJItems fuel [] []
         | c2 :: r2 =>
           if c2 = ']' then some (JsonVal.jarr [], r2)
           else parseJItems fuel (c2 :: r2) [])
      else if c = 't' then
        (match r with
         | 'r' :: 'u' :: 'e' :: r2 => some (JsonVal.jbool true, r2)
         | _ => none)
      else if c = 'f' then
        (match r with
         | 'a' :: 'l' :: 's' :: 'e' :: r2 => some (JsonVal.jbool false, r2)
         | _ => none)
      else if c = 'n' then
        (match r with
         | 'u' :: 'l' :: 'l' :: r2 => some (JsonVal.jnull, r2)
         | _ => none)
      else (parseJNumber (c :: r)).map (fun p => (JsonVal.jnum p.1, p.2))

/-- Object members after `{` (first member not yet consumed). -/
def parseJMembers : Nat → List Char → List (List Char × JsonVal) →
    Option (JsonVal × List Char)
  | 0, _, _ => none
  | fuel + 1, l, acc =>
    match skipWs l with
    | [] => none
    | c :: r =>
      if c = '"' then do
        let (key, r1) ← parseJString r
        match skipWs r1 with
        | [] => none
        | c2 :: r2 =>
          if c2 = ':' then do
            let (v, r3) ← parseJValue fuel r2
            match skipWs r3 with
            | [] => none
            | c3 :: r4 =>
              if c3 = ',' then parseJMembers fuel r4 (acc ++ [(key, v)])
              else if c3 = '}' then some (JsonVal.jobj (acc ++ [(key, v)]), r4)
              else none
          else none
      else none

/-- Array items after `[` (first item not yet consumed). -/
def parseJItems : Nat → List Char → List JsonVal →
    Option (JsonVal × List Char)
  | 0, _, _ => none
  | fuel + 1, l, acc => do
    let (v, r) ← parseJValue fuel l
    match skipWs r with
    | [] => none
    | c :: r2 =>
      if c = ',' then parseJItems fuel r2 (acc ++ [v])
      else if c = ']' then some (JsonVal.jarr (acc ++ [v]), r2)
      else none

end

/-- `json.loads`: parse one value and require only whitespace after it;
`none` for `json.JSONDecodeError`. -/
def jsonLoads (s : List Char) : Option JsonVal :=
  match parseJValue (s.length + 1) s with
  | some (v, rest) => if skipWs rest = [] then some v else none
  | none => none

/-- Escaping of one character in `json.dumps` (default `ensure_ascii=True`):
quote, backslash, the short control escapes, `\uXXXX` for other controls and
all non-ASCII (surrogate pairs beyond the BMP). -/
def jsonEscapeChar (c : Char) : List Char :=
  let n := c.toNat
  if c = '"' then ['\\', '"']
  else if c = '\\' then ['\\', '\\']
  else if n = 8 then ['\\', 'b']
  else if n = 9 then ['\\', 't']
  else if n = 10 then ['\\', 'n']
  else if n = 12 then ['\\', 'f']
  else if n = 13 then ['\\', 'r']
  else if n < 32 ∨ 127 ≤ n then
    if n < 65536 then '\\' :: 'u' :: hexPrint 4 n
    else
      '\\' :: 'u' :: hexPrint 4 (55296 + (n - 65536) / 1024) ++
        '\\' :: 'u' :: hexPrint 4 (56320 + (n - 65536) % 1024)
  else [c]

/-- `json.dumps({"created_at": s1, "id": s2}, sort_keys=True)` with the
default separators: `{"created_at": "S1", "id": "S2"}`. -/
def jsonDumpsCursor (s1 s2 : List Char) : List Char :=
  '{' :: '"' :: "created_at".toList ++ '"' :: ':' :: ' ' :: '"' ::
    (s1.map jsonEscapeChar).flatten ++ '"' :: ',' :: ' ' :: '"' :: "id".toList ++
    '"' :: ':' :: ' ' :: '"' :: (s2.map jsonEscapeChar).flatten ++ ['"', '}']

/-- `d[key]` on a parsed JSON value: `KeyError` when the key is absent from an
object (duplicate keys: last wins, as when `json.loads` builds the dict), and
`TypeError` when the value is not an object. -/
inductive SubscriptErr where
  | keyError
  | typeError
deriving DecidableEq, Repr

/-- `j[key]` (see `SubscriptErr`). -/
def pySubscript (j : JsonVal) (key : List Char) : Except SubscriptErr JsonVal :=
  match j with
  | JsonVal.jobj members =>
    match (members.filter (fun p => p.1 = key)).getLast? with
    | some p => Except.ok p.2
    | none => Except.error SubscriptErr.keyError
  | _ => Except.error SubscriptErr.typeError

/-! ### `PaginationCursor` -/

/-- `PaginationCursor` from `app/pagination.py`: a `datetime` and a UUID
(the UUID as its 128-bit integer value). -/
structure PaginationCursor where
  created_at : DateTimeM
  id : Nat
deriving DecidableEq, Repr

/-- How `PaginationCursor.decode` terminates: a caught failure re-raised as
`ValidationException("Invalid cursor format: ...")`, or an exception class the
`except (ValueError, KeyError, json.JSONDecodeError)` clause does not cover,
which propagates out of `decode`. -/
inductive DecodeErr where
  | validationError
  | typeError
  | attributeError
deriving DecidableEq, Repr

instance {ε : Type} {α : Type} [DecidableEq ε] [DecidableEq α] :
    DecidableEq (Except ε α)
  | Except.ok a, Except.ok b =>
    if h : a = b then Decidable.isTrue (by rw [h])
    else Decidable.isFalse (by simp [h])
  | Except.error a, Except.error b =>
    if h : a = b then Decidable.isTrue (by rw [h])
    else Decidable.isFalse (by simp [h])
  | Except.ok _, Except.error _ => Decidable.isFalse (by simp)
  | Except.error _, Except.ok _ => Decidable.isFalse (by simp)

/-- `PaginationCursor.encode`. -/
def PaginationCursor.encode (c : PaginationCursor) : List Char :=
  b64encode (utf8Encode (jsonDumpsCursor (isoformatM c.created_at) (uuidStr c.id)))

/-- `PaginationCursor.decode`.  Each stage's exception class decides whether
the failure is caught (`validationError`) or propagates: `binascii.Error`,
`UnicodeDecodeError` and `JSONDecodeError` are `ValueError`s and are caught;
`KeyError` is caught; but subscripting a non-dict payload or calling
`datetime.fromisoformat` on a non-string raises `TypeError`, and
`uuid.UUID` on a non-string raises `AttributeError` (`hex.replace` on a
non-string), neither of which the `except` clause lists. -/
def PaginationCursor.decode (token : List Char) : Except DecodeErr PaginationCursor :=
  match b64decode token with
  | none => Except.error DecodeErr.validationError
  | some bytes =>
    match utf8Decode bytes with
    | none => Except.error DecodeErr.validationError
    | some payload =>
      match jsonLoads payload with
      | none => Except.error DecodeErr.validationError
      | some j =>
        match pySubscript j "created_at".toList with
        | Except.error SubscriptErr.typeError => Except.error DecodeErr.typeError
        | Except.error SubscriptErr.keyError => Except.error DecodeErr.validationError
        | Except.ok v =>
          match v with
          | JsonVal.jstr s =>
            match fromisoformatM s with
            | none => Except.error DecodeErr.validationError
            | some dt =>
              match pySubscript j "id".toList with
              | Except.error SubscriptErr.typeError => Except.error DecodeErr.typeError
              | Except.error SubscriptErr.keyError => Except.error DecodeErr.validationError
              | Except.ok w =>
                match w with
                | JsonVal.jstr s2 =>
                  match uuidParse s2 with
                  | none => Except.error DecodeErr.validationError
                  | some u => Except.ok ⟨dt, u⟩
                | _ => Except.error DecodeErr.attributeError
          | _ => Except.error DecodeErr.typeError

/-! ## Theorems -/

theorem find?_eq_none_of_not_contains {V : Type u}
    (l : List (String × CacheEntry V)) (k : String)
    (h : containsKey l k = false) : l.find? (fun p => p.1 == k) = none := by
  induction l with
  | nil => rfl
  | cons p rest ih =>
    simp only [containsKey, List.any_cons, Bool.or_eq_false_iff] at h
    simp only [List.find?, h.1]
    exact ih (by simp [containsKey, h.2])

theorem lookupEntry_map_store {V : Type u}
    (l : List (String × CacheEntry V)) (k : String) (e : CacheEntry V) :
    lookupEntry (l.map (fun p => if p.1 == k then (k, e) else p)) k =
      (if containsKey l k then some e else none) := by
  induction l with
  | nil => simp [lookupEntry, containsKey]
  | cons p rest ih =>
    by_cases hp : p.1 == k
    · simp [lookupEntry, containsKey, List.find?, hp]
    · simp only [List.map_cons, if_neg hp]
      simp only [lookupEntry, List.find?] at ih ⊢
      rw [show (p.1 == k) = false by simpa using hp]
      simp only [containsKey, List.any_cons,
        show (p.1 == k) = false by simpa using hp, Bool.false_or] at ih ⊢
      exact ih

theorem lookupEntry_append_store {V : Type u}
    (l : List (String × CacheEntry V)) (k : String) (e : CacheEntry V)
    (h : containsKey l k = false) :
    lookupEntry (l ++ [(k, e)]) k = some e := by
  induction l with
  | nil => simp [lookupEntry, List.find?]
  | cons p rest ih =>
    simp only [containsKey, List.any_cons, Bool.or_eq_false_iff] at h
    simp only [List.cons_append, lookupEntry, List.find?, h.1]
    exact ih (by simp [containsKey, h.2])

theorem lookupEntry_storeEntry_self {V : Type u}
    (l : List (String × CacheEntry V)) (k : String) (e : CacheEntry V) :
    lookupEntry (storeEntry l k e) k = some e := by
  unfold storeEntry
  by_cases hc : containsKey l k
  · rw [if_pos hc, lookupEntry_map_store, if_pos hc]
  · rw [if_neg hc, lookupEntry_append_store l k e (by simpa using hc)]

theorem set_lookup {V : Type u} (c : InMemoryCache V) (k : String) (v : V)
    (ttl : Option Int) (now : Int) :
    lookupEntry (InMemoryCache.set c k v ttl now).cache k =
      some { value := v, created_at := now,
             expires_at := InMemoryCache.expiryOf c.default_ttl ttl now } := by
  simp only [InMemoryCache.set]
  exact lookupEntry_storeEntry_self _ k _

theorem get_set_fresh {V : Type u} (c : InMemoryCache V) (k : String) (v : V)
    (T now : Int) (hT : 0 < T) :
    (InMemoryCache.get (InMemoryCache.set c k v (some T) now) k now).1 = some v := by
  have hl := set_lookup c k v (some T) now
  have heff : InMemoryCache.effTtl c.default_ttl (some T) = T := by
    simp [InMemoryCache.effTtl, show ¬ T = 0 by omega]
  rw [InMemoryCache.expiryOf, heff, if_pos (by omega : T > 0)] at hl
  simp only [InMemoryCache.get, hl]
  rw [if_neg (by simp [isExpired]; omega)]

theorem pyGet_set_none {β : Type u} (c : InMemoryCache (Option β)) (k : String)
    (ttl : Option Int) (now t : Int) :
    (pyGetValue (InMemoryCache.set c k none ttl now) k t).1 = none := by
  have hl := set_lookup c k (none : Option β) ttl now
  simp only [pyGetValue, InMemoryCache.get, hl]
  by_cases hexp : isExpired
      ({ value := none, created_at := now,
         expires_at := InMemoryCache.expiryOf c.default_ttl ttl now } :
        CacheEntry (Option β)) t = true
  · rw [if_pos hexp]
    rfl
  · rw [if_neg hexp]
    simp [Option.join]

/-- Claim C2 is false on the code: `set(key, value, ttl=0)` runs
`ttl = ttl or self.default_ttl`, and `0` is falsy, so the entry receives
`expires_at = now + default_ttl` (here `0 + 300 = 300`) rather than no
expiry, and a `get` after that instant returns `None` instead of the value. -/
theorem c2_zero_ttl_counterexample :
    (¬ ∀ e ∈ lookupEntry
        (InMemoryCache.set (⟨10, 300, []⟩ : InMemoryCache Nat) "k" 7 (some 0) 0).cache
        "k", e.expires_at = none) ∧
    (InMemoryCache.get
        (InMemoryCache.set (⟨10, 300, []⟩ : InMemoryCache Nat) "k" 7 (some 0) 0)
        "k" 301).1 ≠ some 7 := by
  constructor
  · decide
  · decide

/-- Claim C2, amended: `ttl=0` falls back to `default_ttl` exactly as
`ttl=None` does, so `set(key, value, ttl=0)` and `set(key, value)` store the
same entry; the entry never expires only when the effective TTL is not
positive (e.g. `default_ttl <= 0`), in which case `expires_at` is unset and
`get(key)` returns the value no matter how much time has elapsed. -/
theorem c2_zero_ttl_amended {V : Type u} (c : InMemoryCache V) (k : String)
    (v : V) (now : Int) (hd : c.default_ttl ≤ 0) :
    InMemoryCache.set c k v (some 0) now = InMemoryCache.set c k v none now ∧
    (∀ e ∈ lookupEntry (InMemoryCache.set c k v (some 0) now).cache k,
      e.expires_at = none) ∧
    ∀ t : Int, (InMemoryCache.get (InMemoryCache.set c k v (some 0) now) k t).1 =
      some v := by
  have heff : InMemoryCache.effTtl c.default_ttl (some 0) = c.default_ttl := by
    simp [InMemoryCache.effTtl]
  have hl := set_lookup c k v (some 0) now
  rw [InMemoryCache.expiryOf, heff, if_neg (by omega : ¬ c.default_ttl > 0)] at hl
  refine ⟨rfl, ?_, ?_⟩
  · rw [hl]
    intro e he
    simp only [Option.mem_def, Option.some_inj] at he
    rw [← he]
  · intro t
    simp only [InMemoryCache.get, hl]
    rw [if_neg (by simp [isExpired])]

/-- Witness for the amended claim C2 at a concrete cache with
`default_ttl = 0`. -/
theorem c2_zero_ttl_amended_witness :
    ((⟨10, 0, []⟩ : InMemoryCache Nat).default_ttl ≤ 0) ∧
    (InMemoryCache.set (⟨10, 0, []⟩ : InMemoryCache Nat) "k" 7 (some 0) 5 =
       InMemoryCache.set (⟨10, 0, []⟩ : InMemoryCache Nat) "k" 7 none 5 ∧
     (∀ e ∈ lookupEntry
        (InMemoryCache.set (⟨10, 0, []⟩ : InMemoryCache Nat) "k" 7 (some 0) 5).cache
        "k", e.expires_at = none) ∧
     ∀ t : Int,
       (InMemoryCache.get
         (InMemoryCache.set (⟨10, 0, []⟩ : InMemoryCache Nat) "k" 7 (some 0) 5)
         "k" t).1 = some 7) :=
  ⟨by decide, c2_zero_ttl_amended (⟨10, 0, []⟩ : InMemoryCache Nat) "k" 7 5 (by decide)⟩

/-- Claim C3 names a real invariant but the code breaks it: with
`max_size = 1` and the single entry keyed by the empty string, `set` of a new
key calls `_evict_lru`, the scan selects `lru_key = ""`, and the final
`if lru_key:` guard treats the empty string as falsy, evicting nothing — the
insert then leaves 2 entries, exceeding `max_size`.  (The code's own
comment says "Remove oldest entries if cache is full".) -/
theorem c3_size_bound_failing_eval :
    ((⟨1, 300, [("", ⟨0, 0, none, 0, none⟩)]⟩ : InMemoryCache Nat).cache.length ≤
      (⟨1, 300, [("", ⟨0, 0, none, 0, none⟩)]⟩ : InMemoryCache Nat).max_size) ∧
    (InMemoryCache.set
      (⟨1, 300, [("", ⟨0, 0, none, 0, none⟩)]⟩ : InMemoryCache Nat)
      "x" 5 none 10).cache.length = 2 := by
  constructor
  · decide
  · decide

/-- Claim C4's consequence fails on the code for the same truthiness slip as
C3: inserting the `max_size + 1 = 2` distinct keys `""` then `"x"` into an
empty cache of capacity 1 leaves both entries present — the
least-recently-accessed key `""` is selected for eviction but the
`if lru_key:` guard skips deleting it. -/
theorem c4_lru_eviction_failing_eval :
    (InMemoryCache.set
      (InMemoryCache.set (⟨1, 300, []⟩ : InMemoryCache Nat) "" 1 none 0)
      "x" 2 none 1).cache.length = 2 ∧
    containsKey
      (InMemoryCache.set
        (InMemoryCache.set (⟨1, 300, []⟩ : InMemoryCache Nat) "" 1 none 0)
        "x" 2 none 1).cache "" = true := by
  constructor
  · decide
  · decide

/-- Claim C5: `get(k)` at the instant of `set(k, v, ttl=T)` with `T > 0`
returns `v`; and a `get` on any entry whose `expires_at` has passed returns
absent and deletes the entry, even before `cleanup_expired` runs. -/
theorem c5_lazy_expiry {V : Type u} (c c₂ : InMemoryCache V) (k k₂ : String)
    (v : V) (T now now₂ ex : Int) (e : CacheEntry V)
    (hT : 0 < T) (he : lookupEntry c₂.cache k₂ = some e)
    (hex : e.expires_at = some ex) (hpassed : ex < now₂) :
    (InMemoryCache.get (InMemoryCache.set c k v (some T) now) k now).1 = some v ∧
    (InMemoryCache.get c₂ k₂ now₂).1 = none ∧
    (InMemoryCache.get c₂ k₂ now₂).2.cache = eraseKey c₂.cache k₂ := by
  refine ⟨get_set_fresh c k v T now hT, ?_, ?_⟩
  · simp only [InMemoryCache.get, he]
    rw [if_pos (by simp [isExpired, hex]; omega)]
  · simp only [InMemoryCache.get, he]
    rw [if_pos (by simp [isExpired, hex]; omega)]

/-- Witness for claim C5 at a concrete cache and entry. -/
theorem c5_lazy_expiry_witness :
    (0 : Int) < 60 ∧
    lookupEntry
      ((⟨10, 300, [("a", ⟨3, 0, some 5, 0, none⟩)]⟩ : InMemoryCache Nat)).cache "a" =
      some ⟨3, 0, some 5, 0, none⟩ ∧
    (InMemoryCache.get
      (InMemoryCache.set (⟨10, 300, []⟩ : InMemoryCache Nat) "k" 7 (some 60) 0)
      "k" 0).1 = some 7 ∧
    (InMemoryCache.get
      (⟨10, 300, [("a", ⟨3, 0, some 5, 0, none⟩)]⟩ : InMemoryCache Nat) "a" 6).1 =
      none ∧
    (InMemoryCache.get
      (⟨10, 300, [("a", ⟨3, 0, some 5, 0, none⟩)]⟩ : InMemoryCache Nat) "a" 6).2.cache =
      eraseKey
        (⟨10, 300, [("a", ⟨3, 0, some 5, 0, none⟩)]⟩ : InMemoryCache Nat).cache "a" := by
  have h := c5_lazy_expiry (⟨10, 300, []⟩ : InMemoryCache Nat)
    (⟨10, 300, [("a", ⟨3, 0, some 5, 0, none⟩)]⟩ : InMemoryCache Nat)
    "k" "a" 7 60 0 6 5 ⟨3, 0, some 5, 0, none⟩
    (by decide) (by decide) (by decide) (by decide)
  exact ⟨by decide, by decide, h.1, h.2.1, h.2.2⟩

/-- Claim C10: a stored `None` is indistinguishable from a miss — after
`set(key, None)` a `get(key)` returns `None` just like a never-set key — and
the `cached()` wrapper therefore treats a cached `None` as a miss: when the
wrapped function returns `None`, every call that observes `None` at the key
invokes the function again, and leaves the key observing `None` again. -/
theorem c10_stored_none_is_miss {β : Type u}
    (c cMiss cRun : InMemoryCache (Option β)) (k kM fullKey : String)
    (ttl : Option Int) (ttlw now tNow tMiss runNow : Int) (f : Unit → Option β)
    (hmiss : lookupEntry cMiss.cache kM = none)
    (hf : f () = none)
    (hobs : (pyGetValue cRun fullKey runNow).1 = none) :
    (pyGetValue (InMemoryCache.set c k none ttl now) k tNow).1 = none ∧
    (pyGetValue cMiss kM tMiss).1 = none ∧
    (cachedCall fullKey ttlw f cRun runNow).2.2 = true ∧
    ∀ t2 : Int,
      (pyGetValue (cachedCall fullKey ttlw f cRun runNow).2.1 fullKey t2).1 =
        none := by
  simp only [pyGetValue] at hobs
  refine ⟨pyGet_set_none c k ttl now tNow, ?_, ?_, ?_⟩
  · simp [pyGetValue, InMemoryCache.get, hmiss]
  · simp only [cachedCall, hobs]
  · intro t2
    simp only [cachedCall, hobs, hf]
    exact pyGet_set_none _ fullKey (some ttlw) runNow t2

/-- Witness for claim C10 at concrete caches and the constant-`None`
function. -/
theorem c10_stored_none_is_miss_witness :
    lookupEntry (⟨10, 300, []⟩ : InMemoryCache (Option Nat)).cache "m" = none ∧
    (fun _ : Unit => (none : Option Nat)) () = none ∧
    (pyGetValue (⟨10, 300, []⟩ : InMemoryCache (Option Nat)) "fk" 0).1 = none ∧
    ((pyGetValue
        (InMemoryCache.set (⟨10, 300, []⟩ : InMemoryCache (Option Nat)) "k" none
          (some 300) 0) "k" 5).1 = none ∧
     (pyGetValue (⟨10, 300, []⟩ : InMemoryCache (Option Nat)) "m" 1).1 = none ∧
     (cachedCall "fk" 300 (fun _ => (none : Option Nat))
        (⟨10, 300, []⟩ : InMemoryCache (Option Nat)) 0).2.2 = true ∧
     ∀ t2 : Int,
       (pyGetValue
         (cachedCall "fk" 300 (fun _ => (none : Option Nat))
           (⟨10, 300, []⟩ : InMemoryCache (Option Nat)) 0).2.1 "fk" t2).1 = none) :=
  ⟨by decide, rfl, by decide,
   c10_stored_none_is_miss (⟨10, 300, []⟩ : InMemoryCache (Option Nat))
     (⟨10, 300, []⟩ : InMemoryCache (Option Nat))
     (⟨10, 300, []⟩ : InMemoryCache (Option Nat)) "k" "m" "fk" (some 300) 300 0 5 1 0
     (fun _ => none) (by decide) rfl (by decide)⟩

/-- Claim C6: with `requests_per_minute = N`, a request finding `N` (or more)
admitted timestamps still inside the 60-second window is rejected with 429,
`Retry-After: 60`, `X-RateLimit-Limit` and `X-RateLimit-Remaining: 0`, and
the downstream handler is not invoked; and once every recorded timestamp is
at least 60 seconds old, the client's next request is admitted. -/
theorem c6_minute_window (N B : Nat) (path : String) (st : RLState) (now : Int)
    (ds : ResponseM)
    (hpath1 : path ≠ "/") (hpath2 : path ≠ "/health")
    (hN : 1 ≤ N) (hB : 1 ≤ B) :
    (N ≤ (st.requests.filter (fun t => t > now - 60)).length →
      (dispatch N B path st now ds).1.status = 429 ∧
      (dispatch N B path st now ds).1.retryAfter = some "60" ∧
      (dispatch N B path st now ds).1.rlLimit = some (toString N) ∧
      (dispatch N B path st now ds).1.rlRemaining = some "0" ∧
      (dispatch N B path st now ds).2.2 = false) ∧
    ((∀ t ∈ st.requests, t + 60 ≤ now) → (∀ t ∈ st.burst_requests, t + 60 ≤ now) →
      (dispatch N B path st now ds).2.2 = true ∧
      (dispatch N B path st now ds).1.status = ds.status) := by
  have hpath : ¬ (path = "/" ∨ path = "/health") := by
    intro h
    rcases h with h | h
    · exact hpath1 h
    · exact hpath2 h
  constructor
  · intro hfull
    have hrl : is_rate_limited N B st now =
        (true, ⟨st.requests.filter (fun t => t > now - 60),
                st.burst_requests.filter (fun t => t > now - 10)⟩) := by
      simp only [is_rate_limited]
      rw [if_pos hfull]
    simp only [dispatch]
    rw [if_neg hpath, hrl]
    exact ⟨rfl, rfl, rfl, rfl, rfl⟩
  · intro hreq hburst
    have h1 : st.requests.filter (fun t => t > now - 60) = [] := by
      rw [List.filter_eq_nil_iff]
      intro a ha
      have := hreq a ha
      simp only [decide_eq_true_eq]
      omega
    have h2 : st.burst_requests.filter (fun t => t > now - 10) = [] := by
      rw [List.filter_eq_nil_iff]
      intro a ha
      have := hburst a ha
      simp only [decide_eq_true_eq]
      omega
    have hrl : is_rate_limited N B st now = (false, ⟨[now], [now]⟩) := by
      simp only [is_rate_limited, h1, h2, List.length_nil]
      rw [if_neg (by omega), if_neg (by omega)]
      simp
    simp only [dispatch]
    rw [if_neg hpath, hrl]
    exact ⟨rfl, rfl⟩

/-- Witness for claim C6: the third request of a client with limit 2 whose
two admitted requests are 1 and 5 seconds old. -/
theorem c6_minute_window_witness :
    ("/api/events" ≠ "/") ∧ ("/api/events" ≠ "/health") ∧ 1 ≤ 2 ∧ 1 ≤ 5 ∧
    ((2 ≤ (([(95 : Int), 99]).filter (fun t => t > (100 : Int) - 60)).length →
      (dispatch 2 5 "/api/events" ⟨[95, 99], [99]⟩ 100
        ⟨200, none, none, none, none⟩).1.status = 429 ∧
      (dispatch 2 5 "/api/events" ⟨[95, 99], [99]⟩ 100
        ⟨200, none, none, none, none⟩).1.retryAfter = some "60" ∧
      (dispatch 2 5 "/api/events" ⟨[95, 99], [99]⟩ 100
        ⟨200, none, none, none, none⟩).1.rlLimit = some (toString 2) ∧
      (dispatch 2 5 "/api/events" ⟨[95, 99], [99]⟩ 100
        ⟨200, none, none, none, none⟩).1.rlRemaining = some "0" ∧
      (dispatch 2 5 "/api/events" ⟨[95, 99], [99]⟩ 100
        ⟨200, none, none, none, none⟩).2.2 = false) ∧
     ((∀ t ∈ [(95 : Int), 99], t + 60 ≤ 100) →
      (∀ t ∈ [(99 : Int)], t + 60 ≤ 100) →
      (dispatch 2 5 "/api/events" ⟨[95, 99], [99]⟩ 100
        ⟨200, none, none, none, none⟩).2.2 = true ∧
      (dispatch 2 5 "/api/events" ⟨[95, 99], [99]⟩ 100
        ⟨200, none, none, none, none⟩).1.status =
        (⟨200, none, none, none, none⟩ : ResponseM).status)) :=
  ⟨by decide, by decide, by decide, by decide,
   c6_minute_window 2 5 "/api/events" ⟨[95, 99], [99]⟩ 100
     ⟨200, none, none, none, none⟩ (by decide) (by decide) (by decide) (by decide)⟩

/-- Claim C7 is false as stated: with the default limits
(`requests_per_minute = 60`, `burst_limit = 10`), a burst of exactly
`burst_limit = 10` requests within 10 seconds from a fresh client is admitted
in full — the burst check `len(burst) >= burst_limit` runs before the current
timestamp is appended, so no request of the burst is rejected with 429. -/
theorem c7_burst_counterexample :
    (runDispatch 60 10 "/api/events" ⟨200, none, none, none, none⟩
      [0, 1, 2, 3, 4, 5, 6, 7, 8, 9] ⟨[], []⟩).1.map (fun p => (p.1.status, p.2)) =
      List.replicate 10 ((200 : Nat), true) := by decide

theorem runDispatch_burst_aux (N B : Nat) (path : String) (ds : ResponseM)
    (hpath1 : path ≠ "/") (hpath2 : path ≠ "/health") (hBN : B < N) (t0 : Int) :
    ∀ (ts acc : List Int),
      (∀ t ∈ acc, t0 ≤ t ∧ t < t0 + 10) →
      (∀ t ∈ ts, t0 ≤ t ∧ t < t0 + 10) →
      acc.length + ts.length = B + 1 →
      acc.length ≤ B →
      (runDispatch N B path ds ts ⟨acc, acc⟩).1.map (fun p => (p.1.status, p.2)) =
        List.replicate (B - acc.length) (ds.status, true) ++ [(429, false)] := by
  have hpath : ¬ (path = "/" ∨ path = "/health") := by
    intro h
    rcases h with h | h
    · exact hpath1 h
    · exact hpath2 h
  intro ts
  induction ts with
  | nil =>
    intro acc _ _ hlen hle
    simp only [List.length_nil] at hlen
    omega
  | cons t rest ih =>
    intro acc hacc hts hlen hle
    have htin := hts t (List.mem_cons_self t rest)
    have hrest : ∀ x ∈ rest, t0 ≤ x ∧ x < t0 + 10 := by
      intro x hx
      exact hts x (List.mem_cons_of_mem t hx)
    have hf60 : acc.filter (fun x => x > t - 60) = acc := by
      rw [List.filter_eq_self]
      intro a ha
      have := hacc a ha
      simp only [decide_eq_true_eq]
      omega
    have hf10 : acc.filter (fun x => x > t - 10) = acc := by
      rw [List.filter_eq_self]
      intro a ha
      have := hacc a ha
      simp only [decide_eq_true_eq]
      omega
    by_cases hlt : acc.length < B
    · have hrl : is_rate_limited N B ⟨acc, acc⟩ t =
          (false, ⟨acc ++ [t], acc ++ [t]⟩) := by
        simp only [is_rate_limited, hf60, hf10]
        rw [if_neg (by omega), if_neg (by omega)]
      have hdisp : dispatch N B path ⟨acc, acc⟩ t ds =
          ({ ds with rlLimit := some (toString N),
                     rlRemaining := some (toString (N - (acc ++ [t]).length)) },
           ⟨acc ++ [t], acc ++ [t]⟩, true) := by
        simp only [dispatch]
        rw [if_neg hpath, hrl]
        rfl
      simp only [runDispatch, hdisp, List.map_cons]
      have hlen1 : acc.length + (rest.length + 1) = B + 1 := by
        simpa using hlen
      have hind := ih (acc ++ [t])
        (by
          intro x hx
          rcases List.mem_append.mp hx with hx | hx
          · exact hacc x hx
          · rcases List.mem_singleton.mp hx with rfl
            exact htin)
        hrest
        (by
          simp only [List.length_append, List.length_cons, List.length_nil]
          omega)
        (by
          simp only [List.length_append, List.length_cons, List.length_nil]
          omega)
      rw [hind]
      have hrep : B - acc.length = (B - (acc ++ [t]).length) + 1 := by
        simp only [List.length_append, List.length_cons, List.length_nil]
        omega
      rw [hrep, List.replicate_succ]
      rfl
    · have heq : acc.length = B := by omega
      have hrl : is_rate_limited N B ⟨acc, acc⟩ t = (true, ⟨acc, acc⟩) := by
        simp only [is_rate_limited, hf60, hf10]
        rw [if_neg (by omega), if_pos (by omega)]
      have hdisp : dispatch N B path ⟨acc, acc⟩ t ds =
          ({ status := 429, retryAfter := some "60",
             rlLimit := some (toString N), rlRemaining := some "0",
             errorCode := some "RATE_LIMIT_EXCEEDED" }, ⟨acc, acc⟩, false) := by
        simp only [dispatch]
        rw [if_neg hpath, hrl]
        rfl
      have hrestnil : rest = [] := by
        have : rest.length = 0 := by
          simp only [List.length_cons] at hlen
          omega
        exact List.length_eq_zero.mp this
      subst hrestnil
      simp only [runDispatch, hdisp, List.map_cons, List.map_nil, heq,
        Nat.sub_self, List.replicate_zero, List.nil_append]

/-- Claim C7, amended: a burst of `burst_limit + 1` requests within a
10-second span (fresh client, `burst_limit < requests_per_minute` so the
minute limit is never the binding one) has its first `burst_limit` requests
admitted and its final request rejected with 429 without reaching the
downstream handler. -/
theorem c7_burst_amended (N B : Nat) (path : String) (ds : ResponseM)
    (t0 : Int) (ts : List Int)
    (hpath1 : path ≠ "/") (hpath2 : path ≠ "/health") (hBN : B < N)
    (hlen : ts.length = B + 1)
    (hspan : ∀ t ∈ ts, t0 ≤ t ∧ t < t0 + 10) :
    (runDispatch N B path ds ts ⟨[], []⟩).1.map (fun p => (p.1.status, p.2)) =
      List.replicate B (ds.status, true) ++ [(429, false)] := by
  have h := runDispatch_burst_aux N B path ds hpath1 hpath2 hBN t0 ts []
    (by intro x hx; cases hx) hspan (by simpa using hlen) (by simp)
  simpa using h

/-- Witness for the amended claim C7: 11 requests within 10 seconds at the
default limits; the first 10 are admitted, the 11th gets the 429. -/
theorem c7_burst_amended_witness :
    ("/api/events" ≠ "/") ∧ ("/api/events" ≠ "/health") ∧ 10 < 60 ∧
    ([(0 : Int), 1, 2, 3, 4, 5, 6, 7, 8, 9, 9] : List Int).length = 10 + 1 ∧
    (∀ t ∈ ([(0 : Int), 1, 2, 3, 4, 5, 6, 7, 8, 9, 9] : List Int),
      (0 : Int) ≤ t ∧ t < 0 + 10) ∧
    (runDispatch 60 10 "/api/events" ⟨200, none, none, none, none⟩
        [0, 1, 2, 3, 4, 5, 6, 7, 8, 9, 9] ⟨[], []⟩).1.map
        (fun p => (p.1.status, p.2)) =
      List.replicate 10 ((200 : Nat), true) ++ [(429, false)] :=
  ⟨by decide, by decide, by decide, by decide, by decide,
   c7_burst_amended 60 10 "/api/events" ⟨200, none, none, none, none⟩ 0
     [0, 1, 2, 3, 4, 5, 6, 7, 8, 9, 9] (by decide) (by decide) (by decide)
     (by decide) (by decide)⟩

theorem rowGt_asymm {a b : Row} (h : rowGt a b) : ¬ rowGt b a := by
  unfold rowGt at *
  omega

theorem rowGt_irrefl (a : Row) : ¬ rowGt a a := by
  unfold rowGt
  omega

theorem cursorPredDesc_iff (c x : Row) : cursorPredDesc c x = true ↔ rowGt c x := by
  unfold cursorPredDesc rowGt
  simp

theorem filter_cursor (q : List Row) (c : Row) (s : List Row)
    (h : List.Pairwise rowGt (q ++ c :: s)) :
    (q ++ c :: s).filter (cursorPredDesc c) = s := by
  rw [List.filter_append]
  have hqnil : q.filter (cursorPredDesc c) = [] := by
    rw [List.filter_eq_nil_iff]
    intro a ha
    have hac : rowGt a c :=
      (List.pairwise_append.mp h).2.2 a ha c (by simp)
    simp only [cursorPredDesc_iff]
    exact rowGt_asymm hac
  have hcs : (c :: s).filter (cursorPredDesc c) = s := by
    simp only [List.filter_cons]
    rw [if_neg (by simp only [cursorPredDesc_iff]; exact rowGt_irrefl c)]
    rw [List.filter_eq_self]
    intro b hb
    have hp := (List.pairwise_append.mp h).2.1
    simp only [cursorPredDesc_iff]
    exact (List.pairwise_cons.mp hp).1 b hb
  rw [hqnil, hcs, List.nil_append]

theorem followPages_aux (snapshot : List Row) (L : Nat) (hL : 1 ≤ L)
    (hsorted : List.Pairwise rowGt snapshot) :
    ∀ (n : Nat) (done rest : List Row) (cursor : Option Row),
      snapshot = done ++ rest →
      (match cursor with
       | none => snapshot
       | some c => snapshot.filter (cursorPredDesc c)) = rest →
      rest.length < n →
      followPages snapshot L n cursor = (rest, false) := by
  intro n
  induction n with
  | zero =>
    intro done rest cursor hsplit hsel hlen
    omega
  | succ n ih =>
    intro done rest cursor hsplit hsel hlen
    have hdata : selectRows snapshot cursor L = rest.take (L + 1) := by
      unfold selectRows
      rw [hsel]
    by_cases hsmall : rest.length ≤ L
    · have htake : rest.take (L + 1) = rest := List.take_of_length_le (by omega)
      have htakeL : rest.take L = rest := List.take_of_length_le hsmall
      have hnext : decide (L < (rest.take (L + 1)).length) = false := by
        rw [htake]
        simp
        omega
      simp only [followPages, hdata, process_events_result, hnext, htake, htakeL]
      have hd : decide (L < rest.length) = false := by
        simp only [decide_eq_false_iff_not]
        omega
      rw [hd]
      rfl
    · push_neg at hsmall
      have hlen1 : (rest.take (L + 1)).length = L + 1 := by
        rw [List.length_take]
        omega
      have hnext : decide (L < (rest.take (L + 1)).length) = true := by
        rw [hlen1]
        simp
      have hitems : (rest.take (L + 1)).take L = rest.take L := by
        rw [List.take_take]
        congr 1
        omega
      have htl : (rest.take L).length = L := by
        rw [List.length_take]
        omega
      have hne : rest.take L ≠ [] := by
        intro h0
        rw [h0] at htl
        simp at htl
        omega
      obtain ⟨q, cLast, hqc⟩ := (List.eq_nil_or_concat (rest.take L)).resolve_left hne
      have hgetLast : (rest.take L).getLast? = some cLast := by
        rw [hqc]
        simp
      have hsplit2 : snapshot = (done ++ q) ++ cLast :: rest.drop L := by
        rw [hsplit]
        conv =>
          lhs
          rw [← List.take_append_drop L rest]
        rw [hqc]
        simp [List.append_assoc]
      have hsel2 : snapshot.filter (cursorPredDesc cLast) = rest.drop L := by
        calc snapshot.filter (cursorPredDesc cLast)
            = ((done ++ q) ++ cLast :: rest.drop L).filter (cursorPredDesc cLast) := by
              rw [← hsplit2]
          _ = rest.drop L := filter_cursor _ _ _ (by rw [← hsplit2]; exact hsorted)
      have hrec := ih (done ++ rest.take L) (rest.drop L) (some cLast)
        (by
          rw [hsplit]
          conv =>
            lhs
            rw [← List.take_append_drop L rest]
          rw [List.append_assoc])
        hsel2
        (by
          rw [List.length_drop]
          omega)
      simp only [followPages, hdata, process_events_result, hnext, hitems,
        hgetLast, if_pos]
      rw [hrec]
      rw [List.take_append_drop]

/-- Claim C1: for an immutable snapshot whose `(created_at, id)` pairs are
pairwise distinct and sorted descending, repeatedly building the query
(`build_events_query`: cursor predicate, descending `(created_at, id)` order,
`limit + 1` rows), processing it with `process_events_result` and following
`next_cursor` returns exactly the snapshot — every row once, no duplicates,
no omissions — and the final page reports `has_next = false`. -/
theorem c1_pagination_completeness (snapshot : List Row) (L : Nat)
    (hL : 1 ≤ L) (hsorted : List.Pairwise rowGt snapshot) :
    followPages snapshot L (snapshot.length + 1) none = (snapshot, false) :=
  followPages_aux snapshot L hL hsorted (snapshot.length + 1) [] snapshot none
    (by simp) rfl (by omega)

/-- Witness for claim C1: the spec's concrete scenario — 25 rows with strictly
decreasing timestamps, page size 10 — pages through 10+10+5 rows and ends
with `has_next = false`. -/
theorem c1_pagination_completeness_witness :
    1 ≤ 10 ∧
    List.Pairwise rowGt
      ((List.range 25).map (fun i => (⟨(24 : Int) - i, (24 : Int) - i⟩ : Row))) ∧
    followPages
      ((List.range 25).map (fun i => (⟨(24 : Int) - i, (24 : Int) - i⟩ : Row)))
      10
      (((List.range 25).map
        (fun i => (⟨(24 : Int) - i, (24 : Int) - i⟩ : Row))).length + 1)
      none =
      ((List.range 25).map (fun i => (⟨(24 : Int) - i, (24 : Int) - i⟩ : Row)),
       false) :=
  ⟨by decide, by decide,
   c1_pagination_completeness
     ((List.range 25).map (fun i => (⟨(24 : Int) - i, (24 : Int) - i⟩ : Row)))
     10 (by decide) (by decide)⟩

theorem decDigitVal?_decDigitChar : ∀ d < 10, decDigitVal? (decDigitChar d) = some d := by
  decide

theorem hexDigitVal?_hexDigitChar : ∀ d < 16, hexDigitVal? (hexDigitChar d) = some d := by
  decide

theorem readDec_decPrint (w : Nat) : ∀ (acc n : Nat) (rest : List Char), n < 10 ^ w →
    readDec w acc (decPrint w n ++ rest) = some (acc * 10 ^ w + n, rest) := by
  induction w with
  | zero =>
    intro acc n rest hn
    simp only [pow_zero] at hn
    have : n = 0 := by omega
    subst this
    simp [decPrint, readDec]
  | succ w ih =>
    intro acc n rest hn
    have hpos : 0 < 10 ^ w := pow_pos (by norm_num) w
    have hdig : n / 10 ^ w < 10 := by
      rw [Nat.div_lt_iff_lt_mul hpos]
      calc n < 10 ^ (w + 1) := hn
        _ = 10 * 10 ^ w := by ring
    simp only [decPrint, List.cons_append, readDec]
    rw [decDigitVal?_decDigitChar _ hdig]
    have harith : (acc * 10 + n / 10 ^ w) * 10 ^ w + n % 10 ^ w =
        acc * 10 ^ (w + 1) + n := by
      calc (acc * 10 + n / 10 ^ w) * 10 ^ w + n % 10 ^ w
          = acc * (10 ^ w * 10) + (n / 10 ^ w * 10 ^ w + n % 10 ^ w) := by ring
        _ = acc * (10 ^ w * 10) + n := by rw [Nat.div_add_mod']
        _ = acc * 10 ^ (w + 1) + n := by rw [pow_succ]
    show readDec w (acc * 10 + n / 10 ^ w) (decPrint w (n % 10 ^ w) ++ rest) =
      some (acc * 10 ^ (w + 1) + n, rest)
    rw [ih (acc * 10 + n / 10 ^ w) (n % 10 ^ w) rest (Nat.mod_lt _ hpos), harith]

theorem hexValList_hexPrint (w : Nat) : ∀ (acc n : Nat) (rest : List Char), n < 16 ^ w →
    hexValList acc (hexPrint w n ++ rest) = hexValList (acc * 16 ^ w + n) rest := by
  induction w with
  | zero =>
    intro acc n rest hn
    simp only [pow_zero] at hn
    have : n = 0 := by omega
    subst this
    simp [hexPrint]
  | succ w ih =>
    intro acc n rest hn
    have hpos : 0 < 16 ^ w := pow_pos (by norm_num) w
    have hdig : n / 16 ^ w < 16 := by
      rw [Nat.div_lt_iff_lt_mul hpos]
      calc n < 16 ^ (w + 1) := hn
        _ = 16 * 16 ^ w := by ring
    simp only [hexPrint, List.cons_append, hexValList]
    rw [hexDigitVal?_hexDigitChar _ hdig]
    have harith : (acc * 16 + n / 16 ^ w) * 16 ^ w + n % 16 ^ w =
        acc * 16 ^ (w + 1) + n := by
      calc (acc * 16 + n / 16 ^ w) * 16 ^ w + n % 16 ^ w
          = acc * (16 ^ w * 16) + (n / 16 ^ w * 16 ^ w + n % 16 ^ w) := by ring
        _ = acc * (16 ^ w * 16) + n := by rw [Nat.div_add_mod']
        _ = acc * 16 ^ (w + 1) + n := by rw [pow_succ]
    show hexValList (acc * 16 + n / 16 ^ w) (hexPrint w (n % 16 ^ w) ++ rest) =
      hexValList (acc * 16 ^ (w + 1) + n) rest
    rw [ih (acc * 16 + n / 16 ^ w) (n % 16 ^ w) rest (Nat.mod_lt _ hpos), harith]

theorem hexPrint_length (w : Nat) : ∀ n, (hexPrint w n).length = w := by
  induction w with
  | zero => intro n; rfl
  | succ w ih => intro n; simp [hexPrint, ih]

theorem hexPrint_mem (w : Nat) : ∀ n c, n < 16 ^ w → c ∈ hexPrint w n →
    ∃ d, d < 16 ∧ c = hexDigitChar d := by
  induction w with
  | zero => intro n c _ hc; cases hc
  | succ w ih =>
    intro n c hn hc
    have hpos : 0 < 16 ^ w := pow_pos (by norm_num) w
    rcases List.mem_cons.mp hc with hc | hc
    · refine ⟨n / 16 ^ w, ?_, hc⟩
      rw [Nat.div_lt_iff_lt_mul hpos]
      calc n < 16 ^ (w + 1) := hn
        _ = 16 * 16 ^ w := by ring
    · exact ih (n % 16 ^ w) c (Nat.mod_lt _ hpos) hc

theorem hexDigitChar_not_special : ∀ d < 16,
    hexDigitChar d ≠ '-' ∧ hexDigitChar d ≠ '{' ∧ hexDigitChar d ≠ '}' ∧
    32 ≤ (hexDigitChar d).toNat ∧ (hexDigitChar d).toNat ≤ 126 ∧
    hexDigitChar d ≠ '"' ∧ hexDigitChar d ≠ '\\' := by
  decide

theorem dropWhile_eq_self_of_none {p : Char → Bool} (l : List Char)
    (h : ∀ c ∈ l, p c = false) : l.dropWhile p = l := by
  cases l with
  | nil => rfl
  | cons a r =>
    rw [List.dropWhile_cons, if_neg]
    simp [h a (by simp)]

theorem stripBraces_id (l : List Char)
    (h : ∀ c ∈ l, ¬ (c = '{' ∨ c = '}')) : stripBraces l = l := by
  unfold stripBraces
  rw [dropWhile_eq_self_of_none l (by
    intro c hc
    simp [h c hc])]
  rw [dropWhile_eq_self_of_none l.reverse (by
    intro c hc
    simp [h c (List.mem_reverse.mp hc)])]
  exact List.reverse_reverse l

theorem uuidStr_roundtrip (n : Nat) (hn : n < 16 ^ 32) :
    uuidParse (uuidStr n) = some n := by
  have hmem : ∀ c ∈ hexPrint 32 n, ∃ d, d < 16 ∧ c = hexDigitChar d :=
    fun c hc => hexPrint_mem 32 n c hn hc
  have hsegnotdash : ∀ c ∈ hexPrint 32 n, (!(c = '-')) = true := by
    intro c hc
    obtain ⟨d, hd, rfl⟩ := hmem c hc
    simp [(hexDigitChar_not_special d hd).1]
  have hnobrace : ∀ c ∈ uuidStr n, ¬ (c = '{' ∨ c = '}') := by
    intro c hc
    unfold uuidStr at hc
    simp only [List.mem_append, List.mem_cons] at hc
    have hofhex : c ∈ hexPrint 32 n → ¬ (c = '{' ∨ c = '}') := by
      intro hmem2 hor
      obtain ⟨d, hd, hcd⟩ := hmem c hmem2
      have hs := hexDigitChar_not_special d hd
      rcases hor with h | h
      · rw [hcd] at h
        exact hs.2.1 h
      · rw [hcd] at h
        exact hs.2.2.1 h
    rcases hc with (((hc | hc | hc) | hc | hc) | hc | hc) | hc | hc
    · exact hofhex (List.take_subset 8 _ hc)
    · subst hc; rintro (h | h) <;> exact absurd h (by decide)
    · exact hofhex (List.drop_subset 8 _ (List.take_subset 4 _ hc))
    · subst hc; rintro (h | h) <;> exact absurd h (by decide)
    · exact hofhex (List.drop_subset 12 _ (List.take_subset 4 _ hc))
    · subst hc; rintro (h | h) <;> exact absurd h (by decide)
    · exact hofhex (List.drop_subset 16 _ (List.take_subset 4 _ hc))
    · subst hc; rintro (h | h) <;> exact absurd h (by decide)
    · exact hofhex (List.drop_subset 20 _ hc)
  have hreassemble : ∀ (h : List Char),
      h.take 8 ++ ((h.drop 8).take 4 ++ ((h.drop 12).take 4 ++
        ((h.drop 16).take 4 ++ h.drop 20))) = h := by
    intro h
    have e20 : h.drop 20 = (h.drop 16).drop 4 := by
      rw [List.drop_drop]
    have e16 : (h.drop 16).take 4 ++ h.drop 20 = h.drop 16 := by
      rw [e20, List.take_append_drop]
    have e12a : h.drop 16 = (h.drop 12).drop 4 := by
      rw [List.drop_drop]
    have e12 : (h.drop 12).take 4 ++ ((h.drop 16).take 4 ++ h.drop 20) =
        h.drop 12 := by
      rw [e16, e12a, List.take_append_drop]
    have e8a : h.drop 12 = (h.drop 8).drop 4 := by
      rw [List.drop_drop]
    have e8 : (h.drop 8).take 4 ++ ((h.drop 12).take 4 ++
        ((h.drop 16).take 4 ++ h.drop 20)) = h.drop 8 := by
      rw [e12, e8a, List.take_append_drop]
    rw [e8, List.take_append_drop]
  have hdashcons : ∀ (l : List Char),
      ('-' :: l).filter (fun c => !(c = '-')) = l.filter (fun c => !(c = '-')) := by
    intro l
    simp
  have h8 := List.filter_eq_self.mpr
    (fun c hc => hsegnotdash c (List.take_subset 8 _ hc))
  have h4a := List.filter_eq_self.mpr
    (fun c hc => hsegnotdash c (List.drop_subset 8 _ (List.take_subset 4 _ hc)))
  have h4b := List.filter_eq_self.mpr
    (fun c hc => hsegnotdash c (List.drop_subset 12 _ (List.take_subset 4 _ hc)))
  have h4c := List.filter_eq_self.mpr
    (fun c hc => hsegnotdash c (List.drop_subset 16 _ (List.take_subset 4 _ hc)))
  have h20 := List.filter_eq_self.mpr
    (fun c hc => hsegnotdash c (List.drop_subset 20 _ hc))
  have hfilter : (uuidStr n).filter (fun c => !(c = '-')) = hexPrint 32 n := by
    unfold uuidStr
    simp only [List.filter_append, hdashcons, h8, h4a, h4b, h4c, h20,
      List.append_assoc]
    exact hreassemble (hexPrint 32 n)
  unfold uuidParse
  rw [stripBraces_id _ hnobrace, hfilter]
  rw [if_pos (hexPrint_length 32 n)]
  have := hexValList_hexPrint 32 0 n [] hn
  rw [List.append_nil] at this
  rw [this]
  simp [hexValList]

theorem b64Val?_b64Char : ∀ m < 64, b64Val? (b64Char m) = some m := by
  decide

theorem b64Char_ne_pad : ∀ m < 64, b64Char m ≠ '=' := by
  decide

theorem b64_roundtrip : ∀ (bs : List Nat), (∀ b ∈ bs, b < 256) →
    b64decode (b64encode bs) = some bs := by
  intro bs
  induction bs using b64encode.induct with
  | case1 a b c rest ih =>
    intro hmem
    have ha : a < 256 := hmem a (by simp)
    have hb : b < 256 := hmem b (by simp)
    have hc : c < 256 := hmem c (by simp)
    simp only [b64encode, b64decode]
    rw [if_neg (b64Char_ne_pad (c % 64) (by omega))]
    rw [b64Val?_b64Char (a / 4) (by omega),
        b64Val?_b64Char (a % 4 * 16 + b / 16) (by omega),
        b64Val?_b64Char (b % 16 * 4 + c / 64) (by omega),
        b64Val?_b64Char (c % 64) (by omega)]
    rw [ih (fun x hx => hmem x (by simp [hx]))]
    simp only [Option.bind_eq_bind, Option.some_bind, Option.some.injEq,
      List.cons.injEq]
    refine ⟨?_, ?_, ?_, trivial⟩ <;> omega
  | case2 a b =>
    intro hmem
    have ha : a < 256 := hmem a (by simp)
    have hb : b < 256 := hmem b (by simp)
    simp only [b64encode, b64decode, if_true]
    rw [if_neg (b64Char_ne_pad (b % 16 * 4) (by omega))]
    rw [b64Val?_b64Char (a / 4) (by omega),
        b64Val?_b64Char (a % 4 * 16 + b / 16) (by omega),
        b64Val?_b64Char (b % 16 * 4) (by omega)]
    simp only [Option.bind_eq_bind, Option.some_bind, Option.some.injEq,
      List.cons.injEq, and_true]
    refine ⟨?_, ?_⟩ <;> omega
  | case3 a =>
    intro hmem
    have ha : a < 256 := hmem a (by simp)
    simp only [b64encode, b64decode, if_true]
    rw [b64Val?_b64Char (a / 4) (by omega),
        b64Val?_b64Char (a % 4 * 16) (by omega)]
    simp only [Option.bind_eq_bind, Option.some_bind, Option.some.injEq,
      List.cons.injEq, and_true]
    omega
  | case4 =>
    intro _
    rfl

theorem utf8EncodeChar_ascii (c : Char) (h : c.toNat < 128) :
    utf8EncodeChar c = [c.toNat] := by
  simp [utf8EncodeChar, h]

theorem utf8_ascii_roundtrip : ∀ (s : List Char), (∀ c ∈ s, c.toNat < 128) →
    utf8Decode (utf8Encode s) = some s := by
  intro s
  induction s with
  | nil =>
    intro _
    simp [utf8Encode, utf8Decode]
  | cons c r ih =>
    intro h
    have hc := h c (by simp)
    simp only [utf8Encode, List.map_cons, List.flatten_cons,
      utf8EncodeChar_ascii c hc, List.cons_append, List.nil_append]
    show utf8Decode (c.toNat :: utf8Encode r) = some (c :: r)
    simp only [utf8Decode]
    rw [if_pos hc]
    rw [ih (fun x hx => h x (by simp [hx]))]
    simp [Char.ofNat_toNat]

theorem expectChar_cons_self (a : Char) (l : List Char) :
    expectChar a (a :: l) = some l := by
  simp [expectChar]

theorem readDec_decPrint_nil (w acc n : Nat) (h : n < 10 ^ w) :
    readDec w acc (decPrint w n) = some (acc * 10 ^ w + n, []) := by
  have := readDec_decPrint w acc n [] h
  rwa [List.append_nil] at this

theorem daysInMonth_le (y m : Nat) : daysInMonth y m ≤ 31 := by
  unfold daysInMonth
  split
  · split <;> norm_num
  · split <;> norm_num

theorem parseTz_nil : parseTz [] = some none := rfl

theorem parseTz_pos (o : Int) (h0 : 0 ≤ o) (hb : o.natAbs ≤ 1439) :
    parseTz ('+' :: (decPrint 2 (o.natAbs / 60) ++ ':' :: decPrint 2 (o.natAbs % 60))) =
      some (some o) := by
  simp only [parseTz]
  simp only [true_or, if_true]
  rw [readDec_decPrint 2 0 (o.natAbs / 60) _ (by omega)]
  dsimp only
  rw [expectChar_cons_self]
  dsimp only
  rw [readDec_decPrint_nil 2 0 (o.natAbs % 60) (by omega)]
  dsimp only
  rw [if_pos (⟨rfl, by omega, by omega⟩ :
    ([] : List Char) = [] ∧ 0 * 10 ^ 2 + o.natAbs / 60 ≤ 23 ∧
      0 * 10 ^ 2 + o.natAbs % 60 ≤ 59)]
  rw [if_neg (by decide : ¬ ('+' : Char) = '-')]
  simp only [Option.some.injEq, Nat.zero_mul, Nat.zero_add]
  omega

theorem parseTz_neg (o : Int) (h0 : o < 0) (hb : o.natAbs ≤ 1439) :
    parseTz ('-' :: (decPrint 2 (o.natAbs / 60) ++ ':' :: decPrint 2 (o.natAbs % 60))) =
      some (some o) := by
  simp only [parseTz]
  simp only [or_true, if_true]
  rw [readDec_decPrint 2 0 (o.natAbs / 60) _ (by omega)]
  dsimp only
  rw [expectChar_cons_self]
  dsimp only
  rw [readDec_decPrint_nil 2 0 (o.natAbs % 60) (by omega)]
  dsimp only
  rw [if_pos (⟨rfl, by omega, by omega⟩ :
    ([] : List Char) = [] ∧ 0 * 10 ^ 2 + o.natAbs / 60 ≤ 23 ∧
      0 * 10 ^ 2 + o.natAbs % 60 ≤ 59)]
  simp only [if_true, Option.some.injEq, Nat.zero_mul, Nat.zero_add]
  omega

theorem fromiso_initial (y mo dd hh mi ss : Nat) (tail : List Char)
    (hy2 : y ≤ 9999) (hm1 : 1 ≤ mo) (hm2 : mo ≤ 12) (hd1 : 1 ≤ dd)
    (hd2 : dd ≤ daysInMonth y mo) (hhh : hh ≤ 23) (hmi : mi ≤ 59)
    (hss : ss ≤ 59) :
    fromisoformatM (decPrint 4 y ++ '-' :: (decPrint 2 mo ++ '-' ::
      (decPrint 2 dd ++ 'T' :: (decPrint 2 hh ++ ':' :: (decPrint 2 mi ++ ':' ::
        (decPrint 2 ss ++ tail)))))) =
      (parseFraction tail).bind (fun p =>
        (parseTz p.2).bind (fun o2 =>
          some ⟨y, mo, dd, hh, mi, ss, p.1, o2⟩)) := by
  unfold fromisoformatM
  rw [readDec_decPrint 4 0 y _ (by omega)]
  simp only [Option.bind_eq_bind, Option.some_bind, Nat.zero_mul, Nat.zero_add]
  rw [expectChar_cons_self]
  simp only [Option.some_bind]
  rw [readDec_decPrint 2 0 mo _ (by omega)]
  simp only [Option.some_bind, Nat.zero_mul, Nat.zero_add]
  rw [expectChar_cons_self]
  simp only [Option.some_bind]
  rw [readDec_decPrint 2 0 dd _ (by have := daysInMonth_le y mo; omega)]
  simp only [Option.some_bind, Nat.zero_mul, Nat.zero_add]
  rw [if_pos (⟨hm1, hm2, hd1, hd2⟩ :
    1 ≤ mo ∧ mo ≤ 12 ∧ 1 ≤ dd ∧ dd ≤ daysInMonth y mo)]
  simp only [true_or, if_true]
  rw [readDec_decPrint 2 0 hh _ (by omega)]
  simp only [Option.some_bind, Nat.zero_mul, Nat.zero_add]
  rw [expectChar_cons_self]
  simp only [Option.some_bind]
  rw [readDec_decPrint 2 0 mi _ (by omega)]
  simp only [Option.some_bind, Nat.zero_mul, Nat.zero_add]
  rw [expectChar_cons_self]
  simp only [Option.some_bind]
  rw [readDec_decPrint 2 0 ss _ (by omega)]
  simp only [Option.some_bind, Nat.zero_mul, Nat.zero_add]
  rw [if_pos (⟨hhh, hmi, hss⟩ : hh ≤ 23 ∧ mi ≤ 59 ∧ ss ≤ 59)]

theorem fromisoformat_isoformat (d : DateTimeM) (h : ValidDateTime d) :
    fromisoformatM (isoformatM d) = some d := by
  obtain ⟨y, mo, dd, hh, mi, ss, us, off⟩ := d
  obtain ⟨hy1, hy2, hm1, hm2, hd1, hd2, hhh, hmi, hss, hus, hoff⟩ := h
  dsimp only at hy1 hy2 hm1 hm2 hd1 hd2 hhh hmi hss hus hoff
  unfold isoformatM
  dsimp only
  by_cases hus0 : us = 0
  · subst hus0
    rw [if_pos rfl]
    cases off with
    | none =>
      simp only [List.append_assoc, List.cons_append, List.append_nil,
        List.nil_append]
      rw [show decPrint 2 ss = decPrint 2 ss ++ ([] : List Char) from
        (List.append_nil _).symm]
      rw [fromiso_initial y mo dd hh mi ss _ hy2 hm1 hm2 hd1 hd2 hhh hmi hss]
      simp [parseFraction, parseTz]
    | some o =>
      have hb : o.natAbs ≤ 1439 := by
        have := hoff o (by simp)
        omega
      dsimp only
      by_cases hneg : o < 0
      · rw [if_pos hneg]
        simp only [List.append_assoc, List.cons_append, List.append_nil,
          List.nil_append]
        rw [fromiso_initial y mo dd hh mi ss _ hy2 hm1 hm2 hd1 hd2 hhh hmi hss]
        simp only [parseFraction]
        rw [if_neg (by decide : ¬ ('-' : Char) = '.')]
        simp only [Option.some_bind]
        rw [parseTz_neg o hneg hb]
        simp only [Option.some_bind]
      · rw [if_neg hneg]
        simp only [List.append_assoc, List.cons_append, List.append_nil,
          List.nil_append]
        rw [fromiso_initial y mo dd hh mi ss _ hy2 hm1 hm2 hd1 hd2 hhh hmi hss]
        simp only [parseFraction]
        rw [if_neg (by decide : ¬ ('+' : Char) = '.')]
        simp only [Option.some_bind]
        rw [parseTz_pos o (by omega) hb]
        simp only [Option.some_bind]
  · rw [if_neg hus0]
    cases off with
    | none =>
      simp only [List.append_assoc, List.cons_append, List.append_nil,
        List.nil_append]
      rw [fromiso_initial y mo dd hh mi ss _ hy2 hm1 hm2 hd1 hd2 hhh hmi hss]
      simp only [parseFraction, if_true]
      rw [readDec_decPrint_nil 6 0 us (by omega)]
      simp only [Option.some_bind, Nat.zero_mul, Nat.zero_add]
      rw [parseTz_nil]
      simp only [Option.some_bind]
    | some o =>
      have hb : o.natAbs ≤ 1439 := by
        have := hoff o (by simp)
        omega
      dsimp only
      by_cases hneg : o < 0
      · rw [if_pos hneg]
        simp only [List.append_assoc, List.cons_append, List.append_nil,
          List.nil_append]
        rw [fromiso_initial y mo dd hh mi ss _ hy2 hm1 hm2 hd1 hd2 hhh hmi hss]
        simp only [parseFraction, if_true]
        rw [readDec_decPrint 6 0 us _ (by omega)]
        simp only [Option.some_bind, Nat.zero_mul, Nat.zero_add]
        rw [parseTz_neg o hneg hb]
        simp only [Option.some_bind]
      · rw [if_neg hneg]
        simp only [List.append_assoc, List.cons_append, List.append_nil,
          List.nil_append]
        rw [fromiso_initial y mo dd hh mi ss _ hy2 hm1 hm2 hd1 hd2 hhh hmi hss]
        simp only [parseFraction, if_true]
        rw [readDec_decPrint 6 0 us _ (by omega)]
        simp only [Option.some_bind, Nat.zero_mul, Nat.zero_add]
        rw [parseTz_pos o (by omega) hb]
        simp only [Option.some_bind]

theorem skipWs_quote (l : List Char) : skipWs ('"' :: l) = '"' :: l := rfl
theorem skipWs_colon (l : List Char) : skipWs (':' :: l) = ':' :: l := rfl
theorem skipWs_comma (l : List Char) : skipWs (',' :: l) = ',' :: l := rfl
theorem skipWs_rbrace (l : List Char) : skipWs ('}' :: l) = '}' :: l := rfl
theorem skipWs_lbrace (l : List Char) : skipWs ('{' :: l) = '{' :: l := rfl
theorem skipWs_space (l : List Char) : skipWs (' ' :: l) = skipWs l := rfl

theorem parseJString_plain : ∀ (s rest : List Char),
    (∀ c ∈ s, c ≠ '"' ∧ c ≠ '\\') →
    parseJString (s ++ '"' :: rest) = some (s, rest) := by
  intro s
  induction s with
  | nil =>
    intro rest _
    rw [List.nil_append, parseJString.eq_def]
    simp
  | cons c r ih =>
    intro rest h
    obtain ⟨h1, h2⟩ := h c (by simp)
    rw [List.cons_append, parseJString.eq_def]
    dsimp only
    rw [if_neg h1, if_neg h2, ih rest (fun x hx => h x (by simp [hx]))]
    rfl

theorem parseJValue_dumps (k : Nat) (s1 s2 : List Char)
    (h1 : ∀ c ∈ s1, c ≠ '"' ∧ c ≠ '\\') (h2 : ∀ c ∈ s2, c ≠ '"' ∧ c ≠ '\\')
    (he1 : (s1.map jsonEscapeChar).flatten = s1)
    (he2 : (s2.map jsonEscapeChar).flatten = s2) :
    parseJValue (k + 4) (jsonDumpsCursor s1 s2) =
      some (JsonVal.jobj [("created_at".toList, JsonVal.jstr s1),
                          ("id".toList, JsonVal.jstr s2)], []) := by
  unfold jsonDumpsCursor
  rw [he1, he2]
  simp only [List.cons_append, List.append_assoc]
  rw [parseJValue.eq_def]
  try simp only [Option.map_some', Option.bind_eq_bind, Option.some_bind]
  try dsimp only
  rw [skipWs_lbrace]
  try simp only [Option.map_some', Option.bind_eq_bind, Option.some_bind]
  try dsimp only
  rw [if_neg (by decide : ¬ ('{' : Char) = '"')]
  try simp only [if_true]
  rw [skipWs_quote]
  try simp only [Option.map_some', Option.bind_eq_bind, Option.some_bind]
  try dsimp only
  rw [if_neg (by decide : ¬ ('"' : Char) = '}')]
  rw [parseJMembers.eq_def]
  try simp only [Option.map_some', Option.bind_eq_bind, Option.some_bind]
  try dsimp only
  rw [skipWs_quote]
  try simp only [Option.map_some', Option.bind_eq_bind, Option.some_bind]
  try dsimp only
  try simp only [if_true]
  rw [parseJString_plain ("created_at".toList) _ (by decide)]
  try simp only [Option.bind_eq_bind, Option.some_bind]
  try simp only [Option.map_some', Option.bind_eq_bind, Option.some_bind]
  try dsimp only
  rw [skipWs_colon]
  try simp only [Option.map_some', Option.bind_eq_bind, Option.some_bind]
  try dsimp only
  try simp only [if_true]
  rw [parseJValue.eq_def]
  try simp only [Option.map_some', Option.bind_eq_bind, Option.some_bind]
  try dsimp only
  rw [skipWs_space, skipWs_quote]
  try simp only [Option.map_some', Option.bind_eq_bind, Option.some_bind]
  try dsimp only
  try simp only [if_true]
  rw [parseJString_plain s1 _ h1]
  try simp only [Option.map_some', Option.bind_eq_bind, Option.some_bind]
  try dsimp only
  rw [skipWs_comma]
  try simp only [Option.map_some', Option.bind_eq_bind, Option.some_bind]
  try dsimp only
  try simp only [if_true]
  rw [parseJMembers.eq_def]
  try simp only [Option.map_some', Option.bind_eq_bind, Option.some_bind]
  try dsimp only
  rw [skipWs_space, skipWs_quote]
  try simp only [Option.map_some', Option.bind_eq_bind, Option.some_bind]
  try dsimp only
  try simp only [if_true]
  rw [parseJString_plain ("id".toList) _ (by decide)]
  try simp only [Option.bind_eq_bind, Option.some_bind]
  try simp only [Option.map_some', Option.bind_eq_bind, Option.some_bind]
  try dsimp only
  rw [skipWs_colon]
  try simp only [Option.map_some', Option.bind_eq_bind, Option.some_bind]
  try dsimp only
  try simp only [if_true]
  rw [parseJValue.eq_def]
  try simp only [Option.map_some', Option.bind_eq_bind, Option.some_bind]
  try dsimp only
  rw [skipWs_space, skipWs_quote]
  try simp only [Option.map_some', Option.bind_eq_bind, Option.some_bind]
  try dsimp only
  try simp only [if_true]
  rw [parseJString_plain s2 _ h2]
  try simp only [Option.map_some', Option.bind_eq_bind, Option.some_bind]
  try dsimp only
  rw [skipWs_rbrace]
  try simp only [Option.map_some', Option.bind_eq_bind, Option.some_bind]
  try dsimp only
  rw [if_neg (by decide : ¬ ('}' : Char) = ',')]
  try simp only [if_true]
  simp

theorem jsonEscapeChar_plain (c : Char) (h32 : 32 ≤ c.toNat) (h126 : c.toNat ≤ 126)
    (hq : c ≠ '"') (hb : c ≠ '\\') : jsonEscapeChar c = [c] := by
  simp only [jsonEscapeChar]
  rw [if_neg hq, if_neg hb, if_neg (by omega), if_neg (by omega),
    if_neg (by omega), if_neg (by omega), if_neg (by omega), if_neg (by omega)]

theorem jsonEscape_id (s : List Char)
    (h : ∀ c ∈ s, 32 ≤ c.toNat ∧ c.toNat ≤ 126 ∧ c ≠ '"' ∧ c ≠ '\\') :
    (s.map jsonEscapeChar).flatten = s := by
  induction s with
  | nil => rfl
  | cons c r ih =>
    obtain ⟨h1, h2, h3, h4⟩ := h c (by simp)
    simp only [List.map_cons, List.flatten_cons, jsonEscapeChar_plain c h1 h2 h3 h4]
    rw [ih (fun x hx => h x (by simp [hx]))]
    rfl

theorem jsonDumpsCursor_length (s1 s2 : List Char)
    (he1 : (s1.map jsonEscapeChar).flatten = s1)
    (he2 : (s2.map jsonEscapeChar).flatten = s2) :
    (jsonDumpsCursor s1 s2).length = s1.length + s2.length + 28 := by
  unfold jsonDumpsCursor
  rw [he1, he2]
  simp [List.length_append]
  omega

theorem jsonLoads_dumps (s1 s2 : List Char)
    (h1 : ∀ c ∈ s1, c ≠ '"' ∧ c ≠ '\\') (h2 : ∀ c ∈ s2, c ≠ '"' ∧ c ≠ '\\')
    (he1 : (s1.map jsonEscapeChar).flatten = s1)
    (he2 : (s2.map jsonEscapeChar).flatten = s2) :
    jsonLoads (jsonDumpsCursor s1 s2) =
      some (JsonVal.jobj [("created_at".toList, JsonVal.jstr s1),
                          ("id".toList, JsonVal.jstr s2)]) := by
  unfold jsonLoads
  have hlen := jsonDumpsCursor_length s1 s2 he1 he2
  rw [show (jsonDumpsCursor s1 s2).length + 1 = (s1.length + s2.length + 25) + 4 from by
    omega]
  rw [parseJValue_dumps (s1.length + s2.length + 25) s1 s2 h1 h2 he1 he2]
  rfl

theorem decPrint_mem (w : Nat) : ∀ n c, n < 10 ^ w → c ∈ decPrint w n →
    ∃ d, d < 10 ∧ c = decDigitChar d := by
  induction w with
  | zero => intro n c _ hc; cases hc
  | succ w ih =>
    intro n c hn hc
    have hpos : 0 < 10 ^ w := pow_pos (by norm_num) w
    rcases List.mem_cons.mp hc with hc | hc
    · refine ⟨n / 10 ^ w, ?_, hc⟩
      rw [Nat.div_lt_iff_lt_mul hpos]
      calc n < 10 ^ (w + 1) := hn
        _ = 10 * 10 ^ w := by ring
    · exact ih (n % 10 ^ w) c (Nat.mod_lt _ hpos) hc

theorem decDigitChar_plain : ∀ d < 10,
    32 ≤ (decDigitChar d).toNat ∧ (decDigitChar d).toNat ≤ 126 ∧
    decDigitChar d ≠ '"' ∧ decDigitChar d ≠ '\\' := by
  decide

theorem isoformatM_plain (d : DateTimeM) (h : ValidDateTime d) :
    ∀ c ∈ isoformatM d,
      32 ≤ c.toNat ∧ c.toNat ≤ 126 ∧ c ≠ '"' ∧ c ≠ '\\' := by
  obtain ⟨hy1, hy2, hm1, hm2, hd1, hd2, hhh, hmi, hss, hus, hoff⟩ := h
  have hdmle := daysInMonth_le d.year d.month
  have hdec : ∀ (w n : Nat), n < 10 ^ w → ∀ c ∈ decPrint w n,
      32 ≤ c.toNat ∧ c.toNat ≤ 126 ∧ c ≠ '"' ∧ c ≠ '\\' := by
    intro w n hn c hmem
    obtain ⟨d2, hd10, hceq⟩ := decPrint_mem w n c hn hmem
    rw [hceq]
    exact decDigitChar_plain d2 hd10
  unfold isoformatM
  simp only [List.forall_mem_append, List.forall_mem_cons]
  repeat' apply And.intro
  all_goals try decide
  all_goals try (exact hdec _ _ (by omega))
  · split
    · intro c hc
      cases hc
    · simp only [List.forall_mem_cons]
      exact ⟨by decide, hdec 6 _ (by omega)⟩
  · cases hoffm : d.utcoffset with
    | none =>
      intro c hc
      cases hc
    | some off =>
      have hb := hoff off (by simp [hoffm])
      simp only [List.forall_mem_cons, List.forall_mem_append]
      repeat' apply And.intro
      all_goals try decide
      all_goals try (exact hdec _ _ (by omega))
      all_goals (split <;> decide)

theorem hexDigitChar_plain : ∀ d < 16,
    32 ≤ (hexDigitChar d).toNat ∧ (hexDigitChar d).toNat ≤ 126 ∧
    hexDigitChar d ≠ '"' ∧ hexDigitChar d ≠ '\\' := by
  decide

theorem uuidStr_plain (n : Nat) (hn : n < 16 ^ 32) :
    ∀ c ∈ uuidStr n,
      32 ≤ c.toNat ∧ c.toNat ≤ 126 ∧ c ≠ '"' ∧ c ≠ '\\' := by
  intro c hc
  have hhex : c ∈ hexPrint 32 n →
      32 ≤ c.toNat ∧ c.toNat ≤ 126 ∧ c ≠ '"' ∧ c ≠ '\\' := by
    intro hmem
    obtain ⟨d, hd, hcd⟩ := hexPrint_mem 32 n c hn hmem
    rw [hcd]
    exact hexDigitChar_plain d hd
  unfold uuidStr at hc
  simp only [List.mem_append, List.mem_cons] at hc
  rcases hc with (((hc | hc | hc) | hc | hc) | hc | hc) | hc | hc
  · exact hhex (List.take_subset 8 _ hc)
  · rw [hc]; decide
  · exact hhex (List.drop_subset 8 _ (List.take_subset 4 _ hc))
  · rw [hc]; decide
  · exact hhex (List.drop_subset 12 _ (List.take_subset 4 _ hc))
  · rw [hc]; decide
  · exact hhex (List.drop_subset 16 _ (List.take_subset 4 _ hc))
  · rw [hc]; decide
  · exact hhex (List.drop_subset 20 _ hc)

theorem jsonDumpsCursor_ascii (s1 s2 : List Char)
    (hp1 : ∀ c ∈ s1, 32 ≤ c.toNat ∧ c.toNat ≤ 126 ∧ c ≠ '"' ∧ c ≠ '\\')
    (hp2 : ∀ c ∈ s2, 32 ≤ c.toNat ∧ c.toNat ≤ 126 ∧ c ≠ '"' ∧ c ≠ '\\') :
    ∀ c ∈ jsonDumpsCursor s1 s2, c.toNat < 128 := by
  have he1 := jsonEscape_id s1 hp1
  have he2 := jsonEscape_id s2 hp2
  unfold jsonDumpsCursor
  rw [he1, he2]
  simp only [List.forall_mem_append, List.forall_mem_cons]
  repeat' apply And.intro
  all_goals try decide
  all_goals try (intro x hx; have := hp1 x hx; omega)
  all_goals (intro x hx; have := hp2 x hx; omega)

theorem utf8Encode_ascii_lt256 (s : List Char) (h : ∀ c ∈ s, c.toNat < 128) :
    ∀ b ∈ utf8Encode s, b < 256 := by
  intro b hb
  unfold utf8Encode at hb
  rw [List.mem_flatten] at hb
  obtain ⟨l, hl, hbl⟩ := hb
  rw [List.mem_map] at hl
  obtain ⟨c, hc, rfl⟩ := hl
  rw [utf8EncodeChar_ascii c (h c hc)] at hbl
  rcases List.mem_singleton.mp hbl with rfl
  have := h c hc
  omega

/-- Claim C8: decoding an encoded cursor returns the original cursor —
`PaginationCursor.decode (c.encode()) == c` for every valid cursor (a real
`datetime` and a 128-bit UUID value). -/
theorem c8_cursor_roundtrip (c : PaginationCursor)
    (hdt : ValidDateTime c.created_at) (hid : c.id < 16 ^ 32) :
    PaginationCursor.decode (PaginationCursor.encode c) = Except.ok c := by
  have hp1 := isoformatM_plain c.created_at hdt
  have hp2 := uuidStr_plain c.id hid
  have he1 := jsonEscape_id _ hp1
  have he2 := jsonEscape_id _ hp2
  have hq1 : ∀ x ∈ isoformatM c.created_at, x ≠ '"' ∧ x ≠ '\\' :=
    fun x hx => ⟨(hp1 x hx).2.2.1, (hp1 x hx).2.2.2⟩
  have hq2 : ∀ x ∈ uuidStr c.id, x ≠ '"' ∧ x ≠ '\\' :=
    fun x hx => ⟨(hp2 x hx).2.2.1, (hp2 x hx).2.2.2⟩
  have hascii := jsonDumpsCursor_ascii _ _ hp1 hp2
  have hbytes := utf8Encode_ascii_lt256 _ hascii
  have hsub1 : pySubscript
      (JsonVal.jobj [("created_at".toList, JsonVal.jstr (isoformatM c.created_at)),
                     ("id".toList, JsonVal.jstr (uuidStr c.id))])
      "created_at".toList = Except.ok (JsonVal.jstr (isoformatM c.created_at)) := rfl
  have hsub2 : pySubscript
      (JsonVal.jobj [("created_at".toList, JsonVal.jstr (isoformatM c.created_at)),
                     ("id".toList, JsonVal.jstr (uuidStr c.id))])
      "id".toList = Except.ok (JsonVal.jstr (uuidStr c.id)) := rfl
  unfold PaginationCursor.encode PaginationCursor.decode
  rw [b64_roundtrip _ hbytes]
  try dsimp only
  rw [utf8_ascii_roundtrip _ hascii]
  try dsimp only
  rw [jsonLoads_dumps _ _ hq1 hq2 he1 he2]
  try dsimp only
  rw [hsub1]
  try dsimp only
  rw [fromisoformat_isoformat c.created_at hdt]
  try dsimp only
  rw [hsub2]
  try dsimp only
  rw [uuidStr_roundtrip c.id hid]

/-- Witness for claim C8 at a concrete aware datetime with microseconds and a
concrete UUID value. -/
theorem c8_cursor_roundtrip_witness :
    ValidDateTime (⟨2024, 3, 15, 10, 30, 5, 123456, some 0⟩ : DateTimeM) ∧
    (123456789 : Nat) < 16 ^ 32 ∧
    PaginationCursor.decode
      (PaginationCursor.encode ⟨⟨2024, 3, 15, 10, 30, 5, 123456, some 0⟩, 123456789⟩) =
      Except.ok ⟨⟨2024, 3, 15, 10, 30, 5, 123456, some 0⟩, 123456789⟩ :=
  ⟨by decide, by decide,
   c8_cursor_roundtrip ⟨⟨2024, 3, 15, 10, 30, 5, 123456, some 0⟩, 123456789⟩
     (by decide) (by decide)⟩

theorem pySubscript_typeError_iff (j : JsonVal) (k : List Char) :
    pySubscript j k = Except.error SubscriptErr.typeError ↔
      ∀ m, j ≠ JsonVal.jobj m := by
  cases j with
  | jobj m =>
    constructor
    · intro h
      exfalso
      simp only [pySubscript] at h
      split at h
      · exact absurd h (by simp)
      · exact absurd h (by simp)
    · intro h
      exact absurd rfl (h m)
  | jstr s => simp [pySubscript]
  | jnum n => simp [pySubscript]
  | jbool b => simp [pySubscript]
  | jnull => simp [pySubscript]
  | jarr l => simp [pySubscript]

theorem pySubscript_ok_jobj (j : JsonVal) (k : List Char) (v : JsonVal)
    (h : pySubscript j k = Except.ok v) : ∃ m, j = JsonVal.jobj m := by
  cases j with
  | jobj m => exact ⟨m, rfl⟩
  | jstr s => exact absurd h (by simp [pySubscript])
  | jnum n => exact absurd h (by simp [pySubscript])
  | jbool b => exact absurd h (by simp [pySubscript])
  | jnull => exact absurd h (by simp [pySubscript])
  | jarr l => exact absurd h (by simp [pySubscript])

/-- Claim C9 is false on the code: the token `eyJjcmVhdGVkX2F0IjogMX0=`
(base64 of the valid JSON `{"created_at": 1}`) is not a well-formed cursor,
yet `decode` raises a `TypeError` — `datetime.fromisoformat` applied to the
non-string `1` — which the `except (ValueError, KeyError, JSONDecodeError)`
clause does not catch, instead of the `ValidationException`
("Invalid cursor format"). -/
theorem c9_decode_counterexample :
    PaginationCursor.decode ("eyJjcmVhdGVkX2F0IjogMX0=".toList) =
      Except.error DecodeErr.typeError ∧
    (Except.error DecodeErr.typeError :
      Except DecodeErr PaginationCursor) ≠
      Except.error DecodeErr.validationError := by
  refine ⟨?_, by decide⟩
  have hb : b64decode ("eyJjcmVhdGVkX2F0IjogMX0=".toList) =
      some [123, 34, 99, 114, 101, 97, 116, 101, 100, 95, 97, 116,
            34, 58, 32, 49, 125] := by decide
  have henc : utf8Encode ("\x7b\x22created_at\x22: 1\x7d".toList) =
      [123, 34, 99, 114, 101, 97, 116, 101, 100, 95, 97, 116,
       34, 58, 32, 49, 125] := by decide
  have hu : utf8Decode [123, 34, 99, 114, 101, 97, 116, 101, 100, 95, 97, 116,
      34, 58, 32, 49, 125] =
      some ("\x7b\x22created_at\x22: 1\x7d".toList) := by
    rw [← henc]
    exact utf8_ascii_roundtrip _ (by decide)
  unfold PaginationCursor.decode
  rw [hb]
  dsimp only
  rw [hu]
  dsimp only
  decide

/-- Claim C9, amended: `decode` raises the structured validation failure for
malformed tokens — bad base64, bad UTF-8, unparsable JSON, a missing field,
or an ill-formed string field — and no other exception kind, except that a
payload that is valid JSON but not an object, or an object whose
`created_at` value is not a string, raises an uncaught `TypeError`, and an
object whose `created_at` is a well-formed string but whose `id` value is
not a string raises an uncaught `AttributeError`. -/
theorem c9_decode_amended (token : List Char) :
    ((∃ c2, PaginationCursor.decode token = Except.ok c2) ∨
     PaginationCursor.decode token = Except.error DecodeErr.validationError ∨
     PaginationCursor.decode token = Except.error DecodeErr.typeError ∨
     PaginationCursor.decode token = Except.error DecodeErr.attributeError) ∧
    (PaginationCursor.decode token = Except.error DecodeErr.typeError →
       ∃ bs payload j, b64decode token = some bs ∧ utf8Decode bs = some payload ∧
         jsonLoads payload = some j ∧
         ((∀ m, j ≠ JsonVal.jobj m) ∨
          ∃ v, pySubscript j "created_at".toList = Except.ok v ∧
            ∀ s, v ≠ JsonVal.jstr s)) ∧
    (PaginationCursor.decode token = Except.error DecodeErr.attributeError →
       ∃ bs payload j w, b64decode token = some bs ∧ utf8Decode bs = some payload ∧
         jsonLoads payload = some j ∧
         pySubscript j "id".toList = Except.ok w ∧ ∀ s, w ≠ JsonVal.jstr s) := by
  unfold PaginationCursor.decode
  cases hb : b64decode token with
  | none =>
    refine ⟨Or.inr (Or.inl rfl), ?_, ?_⟩ <;> (intro h; simp at h)
  | some bs =>
    dsimp only
    cases hu : utf8Decode bs with
    | none =>
      refine ⟨Or.inr (Or.inl rfl), ?_, ?_⟩ <;> (intro h; simp at h)
    | some payload =>
      dsimp only
      cases hj : jsonLoads payload with
      | none =>
        refine ⟨Or.inr (Or.inl rfl), ?_, ?_⟩ <;> (intro h; simp at h)
      | some j =>
        dsimp only
        cases hs1 : pySubscript j "created_at".toList with
        | error e =>
          cases e with
          | typeError =>
            dsimp only
            refine ⟨Or.inr (Or.inr (Or.inl rfl)), ?_, ?_⟩
            · intro _
              exact ⟨bs, payload, j, rfl, hu, hj,
                Or.inl ((pySubscript_typeError_iff j _).mp hs1)⟩
            · intro h
              simp at h
          | keyError =>
            dsimp only
            refine ⟨Or.inr (Or.inl rfl), ?_, ?_⟩ <;> (intro h; simp at h)
        | ok v =>
          dsimp only
          have hobj := pySubscript_ok_jobj j _ v hs1
          cases v with
          | jstr s =>
            dsimp only
            cases hf : fromisoformatM s with
            | none =>
              refine ⟨Or.inr (Or.inl rfl), ?_, ?_⟩ <;> (intro h; simp at h)
            | some dt =>
              dsimp only
              cases hs2 : pySubscript j "id".toList with
              | error e2 =>
                cases e2 with
                | typeError =>
                  obtain ⟨m, rfl⟩ := hobj
                  exact absurd rfl ((pySubscript_typeError_iff _ _).mp hs2 m)
                | keyError =>
                  dsimp only
                  refine ⟨Or.inr (Or.inl rfl), ?_, ?_⟩ <;> (intro h; simp at h)
              | ok w =>
                dsimp only
                cases w with
                | jstr s2 =>
                  dsimp only
                  cases hp : uuidParse s2 with
                  | none =>
                    refine ⟨Or.inr (Or.inl rfl), ?_, ?_⟩ <;> (intro h; simp at h)
                  | some u =>
                    refine ⟨Or.inl ⟨⟨dt, u⟩, rfl⟩, ?_, ?_⟩ <;> (intro h; simp at h)
                | jnum n =>
                  dsimp only
                  refine ⟨Or.inr (Or.inr (Or.inr rfl)), ?_, ?_⟩
                  · intro h
                    simp at h
                  · intro _
                    exact ⟨bs, payload, j, JsonVal.jnum n, rfl, hu, hj, hs2,
                      by intro s3 h2; cases h2⟩
                | jbool b =>
                  dsimp only
                  refine ⟨Or.inr (Or.inr (Or.inr rfl)), ?_, ?_⟩
                  · intro h
                    simp at h
                  · intro _
                    exact ⟨bs, payload, j, JsonVal.jbool b, rfl, hu, hj, hs2,
                      by intro s3 h2; cases h2⟩
                | jnull =>
                  dsimp only
                  refine ⟨Or.inr (Or.inr (Or.inr rfl)), ?_, ?_⟩
                  · intro h
                    simp at h
                  · intro _
                    exact ⟨bs, payload, j, JsonVal.jnull, rfl, hu, hj, hs2,
                      by intro s3 h2; cases h2⟩
                | jarr l =>
                  dsimp only
                  refine ⟨Or.inr (Or.inr (Or.inr rfl)), ?_, ?_⟩
                  · intro h
                    simp at h
                  · intro _
                    exact ⟨bs, payload, j, JsonVal.jarr l, rfl, hu, hj, hs2,
                      by intro s3 h2; cases h2⟩
                | jobj m2 =>
                  dsimp only
                  refine ⟨Or.inr (Or.inr (Or.inr rfl)), ?_, ?_⟩
                  · intro h
                    simp at h
                  · intro _
                    exact ⟨bs, payload, j, JsonVal.jobj m2, rfl, hu, hj, hs2,
                      by intro s3 h2; cases h2⟩
          | jnum n =>
            dsimp only
            refine ⟨Or.inr (Or.inr (Or.inl rfl)), ?_, ?_⟩
            · intro _
              exact ⟨bs, payload, j, rfl, hu, hj,
                Or.inr ⟨JsonVal.jnum n, hs1, by intro s3 h2; cases h2⟩⟩
            · intro h
              simp at h
          | jbool b =>
            dsimp only
            refine ⟨Or.inr (Or.inr (Or.inl rfl)), ?_, ?_⟩
            · intro _
              exact ⟨bs, payload, j, rfl, hu, hj,
                Or.inr ⟨JsonVal.jbool b, hs1, by intro s3 h2; cases h2⟩⟩
            · intro h
              simp at h
          | jnull =>
            dsimp only
            refine ⟨Or.inr (Or.inr (Or.inl rfl)), ?_, ?_⟩
            · intro _
              exact ⟨bs, payload, j, rfl, hu, hj,
                Or.inr ⟨JsonVal.jnull, hs1, by intro s3 h2; cases h2⟩⟩
            · intro h
              simp at h
          | jarr l =>
            dsimp only
            refine ⟨Or.inr (Or.inr (Or.inl rfl)), ?_, ?_⟩
            · intro _
              exact ⟨bs, payload, j, rfl, hu, hj,
                Or.inr ⟨JsonVal.jarr l, hs1, by intro s3 h2; cases h2⟩⟩
            · intro h
              simp at h
          | jobj m2 =>
            dsimp only
            refine ⟨Or.inr (Or.inr (Or.inl rfl)), ?_, ?_⟩
            · intro _
              exact ⟨bs, payload, j, rfl, hu, hj,
                Or.inr ⟨JsonVal.jobj m2, hs1, by intro s3 h2; cases h2⟩⟩
            · intro h
              simp at h

end HarvestLog
